import Mathlib

/-!
Verification of the minigeri agent abstraction layer.

This file shallowly embeds the core of the repository — the per-provider
protocol adapters (Groq, Ollama, Claude API), the tool-schema converters,
the tool-calling orchestration loop, the NDJSON/SSE stream buffering, and
the sandboxed tool executor helpers — as executable Lean definitions, and
proves (or refutes) the spec's testable properties about them.

Conventions:
* JavaScript objects parsed from JSON are modelled by the `Json` inductive;
  JSON.parse is modelled by a fuel-based recursive-descent parser `Json.parse`
  (returning `none` where JSON.parse would throw).
* Stateful `this.messages` mutation becomes explicit state passing; each
  adapter's send() is a function of its inputs plus an oracle describing the
  provider's responses per round.
* Node streams are modelled as the list of string chunks delivered by the
  successive data events.
-/

namespace Minigeri

/-! ## JSON values and JSON.parse -/

/-- JSON values as produced by JavaScript's JSON.parse (numbers restricted to
integers, which covers everything occurring in this repository). -/
inductive Json where
  | null : Json
  | bool : Bool → Json
  | num : Int → Json
  | str : String → Json
  | arr : List Json → Json
  | obj : List (String × Json) → Json

/-- Field lookup, modelling JavaScript property access `o.k` on a parsed value
(`none` plays the role of undefined). -/
def Json.get : Json → String → Option Json
  | .obj fields, k => fields.lookup k
  | _, _ => none

/-- JavaScript truthiness of a JSON value (`undefined` is handled by Option). -/
def Json.truthy : Json → Bool
  | .null => false
  | .bool b => b
  | .num n => n != 0
  | .str s => s ≠ ""
  | .arr _ => true
  | .obj _ => true

/-- Extract a string value, else the empty string (used where the source reads
a field it knows is a string). -/
def Json.asStr : Json → String
  | .str s => s
  | _ => ""

/-! A small recursive-descent parser for the JSON subset above, modelling
JSON.parse: it returns `none` exactly where JSON.parse would throw.  It is
written over `List Char` with explicit fuel (the input length suffices, since
every step consumes at least one character). -/

/-- Skip JSON whitespace. -/
def jsonWs (s : List Char) : List Char :=
  s.dropWhile (fun c => c = ' ' ∨ c = '\n' ∨ c = '\t' ∨ c = '\r')

/-- Parse the body of a JSON string literal after the opening quote:
returns the decoded characters and the rest after the closing quote. -/
def parseStrBody (fuel : Nat) (s : List Char) : Option (List Char × List Char) :=
  match fuel, s with
  | 0, _ => none
  | _, [] => none
  | fuel + 1, c :: rest =>
    if c = '"' then some ([], rest)
    else if c = '\\' then
      match rest with
      | [] => none
      | e :: rest2 =>
        let dec : Option Char :=
          if e = '"' then some '"'
          else if e = '\\' then some '\\'
          else if e = '/' then some '/'
          else if e = 'n' then some '\n'
          else if e = 't' then some '\t'
          else if e = 'r' then some '\r'
          else if e = 'b' then some (Char.ofNat 8)
          else if e = 'f' then some (Char.ofNat 12)
          else none
        match dec with
        | none => none
        | some d =>
          match parseStrBody fuel rest2 with
          | some (cs, rest3) => some (d :: cs, rest3)
          | none => none
    else
      match parseStrBody fuel rest with
      | some (cs, rest3) => some (c :: cs, rest3)
      | none => none

/-- Parse a run of decimal digits. -/
def parseDigits (s : List Char) : List Char × List Char :=
  (s.takeWhile Char.isDigit, s.dropWhile Char.isDigit)

/-- Digits to a natural number value. -/
def digitsToNat (ds : List Char) : Nat :=
  ds.foldl (fun acc c => acc * 10 + (c.toNat - 48)) 0

mutual

/-- Parse one JSON value; returns the value and the remaining input. -/
def parseVal (fuel : Nat) (s : List Char) : Option (Json × List Char) :=
  match fuel with
  | 0 => none
  | fuel + 1 =>
    match jsonWs s with
    | [] => none
    | c :: rest =>
      if c = '"' then
        match parseStrBody (fuel + 1) rest with
        | some (cs, rest2) => some (.str (String.mk cs), rest2)
        | none => none
      else if c = '{' then parseObjFields fuel rest true
      else if c = '[' then parseArrItems fuel rest true
      else if c = 't' then
        match rest with
        | 'r' :: 'u' :: 'e' :: rest2 => some (.bool true, rest2)
        | _ => none
      else if c = 'f' then
        match rest with
        | 'a' :: 'l' :: 's' :: 'e' :: rest2 => some (.bool false, rest2)
        | _ => none
      else if c = 'n' then
        match rest with
        | 'u' :: 'l' :: 'l' :: rest2 => some (.null, rest2)
        | _ => none
      else if c = '-' then
        match parseDigits rest with
        | ([], _) => none
        | (ds, rest2) => some (.num (-(digitsToNat ds : Int)), rest2)
      else if c.isDigit then
        match parseDigits (c :: rest) with
        | ([], _) => none
        | (ds, rest2) => some (.num (digitsToNat ds : Int), rest2)
      else none

/-- Parse the fields of an object after the opening brace (`first` is true
when no field has been consumed yet). -/
def parseObjFields (fuel : Nat) (s : List Char) (first : Bool) :
    Option (Json × List Char) :=
  match fuel with
  | 0 => none
  | fuel + 1 =>
    match jsonWs s with
    | [] => none
    | c :: rest =>
      if c = '}' ∧ first then some (.obj [], rest)
      else
        let afterSep : Option (List Char) :=
          if first then some (c :: rest)
          else if c = '}' then none
          else if c = ',' then some rest
          else none
        match afterSep with
        | none =>
          if c = '}' then some (.obj [], rest) else none
        | some s2 =>
          match jsonWs s2 with
          | '"' :: rest2 =>
            match parseStrBody (fuel + 1) rest2 with
            | some (key, rest3) =>
              match jsonWs rest3 with
              | ':' :: rest4 =>
                match parseVal fuel rest4 with
                | some (v, rest5) =>
                  match parseObjFields fuel rest5 false with
                  | some (.obj fs, rest6) =>
                    some (.obj ((String.mk key, v) :: fs), rest6)
                  | _ => none
                | none => none
              | _ => none
            | none => none
          | _ => none

/-- Parse the items of an array after the opening bracket. -/
def parseArrItems (fuel : Nat) (s : List Char) (first : Bool) :
    Option (Json × List Char) :=
  match fuel with
  | 0 => none
  | fuel + 1 =>
    match jsonWs s with
    | [] => none
    | c :: rest =>
      if c = ']' ∧ first then some (.arr [], rest)
      else
        let afterSep : Option (List Char) :=
          if first then some (c :: rest)
          else if c = ']' then none
          else if c = ',' then some rest
          else none
        match afterSep with
        | none =>
          if c = ']' then some (.arr [], rest) else none
        | some s2 =>
          match parseVal fuel s2 with
          | some (v, rest2) =>
            match parseArrItems fuel rest2 false with
            | some (.arr vs, rest3) => some (.arr (v :: vs), rest3)
            | _ => none
          | none => none

end

/-- JSON.parse on a character list: parse one value and require only
whitespace to remain. -/
def Json.parseChars (s : List Char) : Option Json :=
  match parseVal (s.length + 1) s with
  | some (v, rest) => if jsonWs rest = [] then some v else none
  | none => none

/-- JSON.parse on a string. -/
def Json.parse (s : String) : Option Json :=
  Json.parseChars s.data

/-- Typed field access: the field's string value, if it is a string. -/
def Json.getStr (j : Json) (k : String) : Option String :=
  match j.get k with
  | some (.str s) => some s
  | _ => none

/-- `typeof v === 'object'` for a parsed (hence non-undefined) value that is
also truthy, as in the Groq argument check: arrays and objects qualify,
null is excluded by truthiness. -/
def Json.isObjTyped : Json → Bool
  | .obj _ => true
  | .arr _ => true
  | _ => false

/-! ## JavaScript string helpers

Character-list implementations of the JavaScript string operations the
source uses (trim, split, toLowerCase/toUpperCase, startsWith, default
sort), kept executable down to the kernel. -/

/-- JavaScript whitespace (the forms occurring in this repository). -/
def jsWs (c : Char) : Bool :=
  c = ' ' ∨ c = '\n' ∨ c = '\t' ∨ c = '\r'

/-- `s.trim()`. -/
def trimChars (l : List Char) : List Char :=
  ((l.dropWhile jsWs).reverse.dropWhile jsWs).reverse

/-- `s.split(/\s+/)` on an already-trimmed string: maximal runs of
non-whitespace characters. -/
def wordsChars (l : List Char) : List (List Char) :=
  (l.foldr
    (fun c acc =>
      if jsWs c then [] :: acc
      else
        match acc with
        | [] => [[c]]
        | w :: ws => (c :: w) :: ws)
    [[]]).filter (fun w => w ≠ [])

/-- `s.toUpperCase()`. -/
def jsToUpper (s : String) : String :=
  String.mk (s.data.map Char.toUpper)

/-- `s.toLowerCase()` on a character list. -/
def lowerChars (l : List Char) : List Char :=
  l.map Char.toLower

/-- Code-unit comparison as used by JavaScript's default Array.sort. -/
def charListLe : List Char → List Char → Bool
  | [], _ => true
  | _ :: _, [] => false
  | a :: as, b :: bs =>
    if a.toNat < b.toNat then true
    else if b.toNat < a.toNat then false
    else charListLe as bs

/-! ## Stream buffering (shared by the NDJSON and SSE adapters)

Every streaming adapter in the source uses the same incremental framing:

    buffer += chunk.toString();
    const lines = buffer.split('\n');
    buffer = lines.pop() || '';
    for (const line of lines) ... // handle each complete line

`splitNl` models JavaScript's String.split('\n') (always at least one part);
`processChunk` models one data event for an adapter whose per-line handler
contributes text to an accumulator. -/

/-- JavaScript `s.split('\n')` over a character list. -/
def splitNl : List Char → List (List Char)
  | [] => [[]]
  | c :: cs =>
    if c = '\n' then [] :: splitNl cs
    else
      match splitNl cs with
      | [] => [[c]]
      | l :: ls => (c :: l) :: ls

/-- One data event of a streaming adapter: append the chunk to the buffer,
split off the complete lines, run the per-line step on each in order, and
keep the trailing partial line as the new buffer.  State is (adapter state,
buffer). -/
def lineBuffered {σ : Type} (stepLine : σ → List Char → σ)
    (st : σ × List Char) (chunk : List Char) : σ × List Char :=
  let parts := splitNl (st.2 ++ chunk)
  (parts.dropLast.foldl stepLine st.1, parts.getLastD [])

/-- The common special case where the adapter state is accumulated text and
the per-line handler contributes the text it extracts from the line. -/
def processChunk (handle : List Char → List Char)
    (st : List Char × List Char) (chunk : List Char) : List Char × List Char :=
  lineBuffered (fun acc line => acc ++ handle line) st chunk

/-! ## Conversation state with a trace of reachable states

`this.messages` is mutated by push (and once by unshift / pop); the `Turn`
structure carries the message log together with the list of every
intermediate log produced during the turn, so invariants can be stated about
all reachable conversation states. -/

/-- A turn in progress: the current message log and every intermediate log
reached so far during the turn. -/
structure Turn (M : Type) where
  msgs : List M
  trace : List (List M)

/-- Begin a turn from an existing history. -/
def Turn.start {M : Type} (msgs : List M) : Turn M :=
  { msgs := msgs, trace := [] }

/-- `this.messages.push(m)`. -/
def Turn.push {M : Type} (t : Turn M) (m : M) : Turn M :=
  { msgs := t.msgs ++ [m], trace := t.trace ++ [t.msgs ++ [m]] }

/-- `this.messages.unshift(m)`. -/
def Turn.pushFront {M : Type} (t : Turn M) (m : M) : Turn M :=
  { msgs := m :: t.msgs, trace := t.trace ++ [m :: t.msgs] }

/-- `this.messages.pop()` (discarding the returned element). -/
def Turn.pop {M : Type} (t : Turn M) : Turn M :=
  { msgs := t.msgs.dropLast, trace := t.trace ++ [t.msgs.dropLast] }

/-- Push a whole list of messages in order. -/
def Turn.pushAll {M : Type} (t : Turn M) (ms : List M) : Turn M :=
  ms.foldl Turn.push t

/-- The outcome of one send(): either a resolved final text or a thrown
error, in both cases together with the conversation state left behind. -/
inductive TurnOut (M : Type) where
  | ok (t : Turn M) (text : String)
  | err (t : Turn M) (e : String)

/-- The message log left behind by the turn. -/
def TurnOut.msgs {M : Type} : TurnOut M → List M
  | .ok t _ => t.msgs
  | .err t _ => t.msgs

/-- Every intermediate message log reached during the turn. -/
def TurnOut.trace {M : Type} : TurnOut M → List (List M)
  | .ok t _ => t.trace
  | .err t _ => t.trace

/-- Did the turn throw? -/
def TurnOut.isErr {M : Type} : TurnOut M → Bool
  | .ok _ _ => false
  | .err _ _ => true

/-- The resolved final text (none when the turn threw). -/
def TurnOut.answer {M : Type} : TurnOut M → Option String
  | .ok _ text => some text
  | .err _ _ => none

/-! ## Groq agent (src/agents/groq.js)

Conversation messages use the OpenAI chat shape; tool calls carry a string
id and a function with a name and a raw JSON `arguments` string.  The
provider's behaviour per round is an oracle `Nat → GroqOutcome`; the tool
executor is an abstract `exec : String → Json → String` (executeTool does
filesystem and process I/O). -/

structure GroqFn where
  name : String
  arguments : String

structure GroqToolCall where
  id : String
  function : GroqFn

structure GroqMessage where
  role : String
  content : Option String := none
  tool_calls : List GroqToolCall := []
  tool_call_id : Option String := none

/-- What one non-streaming _callApi attempt does, before the send loop
inspects it: reject (transport error, 401/429/non-200 status, or body parse
failure), or resolve with the parsed choices[0].message content and tool
calls (an absent tool_calls array is the empty list). -/
inductive GroqOutcome where
  | fail (e : String)
  | reply (content : String) (tool_calls : List GroqToolCall)

/-- The resolve step of _callApi (non-streaming branch): with tool calls
present it resolves ('', toolCalls); otherwise (content, null). -/
def groqCallApi : GroqOutcome → Except String (String × Option (List GroqToolCall))
  | .fail e => .error e
  | .reply content tcs =>
    if tcs.length > 0 then .ok ("", some tcs) else .ok (content, none)

/-- Argument parsing in the Groq send loop:
`JSON.parse(tc.function?.arguments || '\x7b\x7d')`, keeping the result only
when it is a truthy value of typeof 'object', else the empty object; a parse
exception also yields the empty object. -/
def groqParseArgs (s : String) : Json :=
  let src := if s = "" then "\x7b\x7d" else s
  match Json.parse src with
  | some j => if j.isObjTyped then j else Json.obj []
  | none => Json.obj []

/-- The tool message pushed for one executed tool call. -/
def groqToolMsg (exec : String → Json → String) (tc : GroqToolCall) : GroqMessage :=
  { role := "tool",
    content := some (exec tc.function.name (groqParseArgs tc.function.arguments)),
    tool_call_id := some tc.id }

/-- The assistant message recording the returned tool calls verbatim. -/
def groqAssistantToolMsg (tcs : List GroqToolCall) : GroqMessage :=
  { role := "assistant", content := none, tool_calls := tcs }

/-- All messages one tool round appends: the recording assistant message
followed by one tool message per call, in order. -/
def groqRoundBlock (exec : String → Json → String) (tcs : List GroqToolCall) :
    List GroqMessage :=
  groqAssistantToolMsg tcs :: tcs.map (groqToolMsg exec)

/-- The final-text branch shared by both exits of a round: push the
assistant text when non-empty and resolve with it. -/
def groqTextFinish (t : Turn GroqMessage) (content : String) : TurnOut GroqMessage :=
  let t := if content ≠ "" then
    t.push { role := "assistant", content := some content } else t
  .ok t content

/-- The tool-calling loop of GroqAgent.send: `round` is the current loop
index (feeding the oracle), `fuel` the remaining iterations of the
`for (round = 0; round < MAX_TOOL_ROUNDS; round++)` loop. -/
def groqRounds (exec : String → Json → String) (oracle : Nat → GroqOutcome) :
    Nat → Nat → Turn GroqMessage → TurnOut GroqMessage
  | _, 0, t => .ok t ""
  | round, fuel + 1, t =>
    match groqCallApi (oracle round) with
    | .error e => .err t e
    | .ok (content, otcs) =>
      match otcs with
      | some tcs =>
        if tcs.length > 0 then
          let t := t.push (groqAssistantToolMsg tcs)
          let t := tcs.foldl (fun t tc => t.push (groqToolMsg exec tc)) t
          groqRounds exec oracle (round + 1) fuel t
        else groqTextFinish t content
      | none => groqTextFinish t content

/-- MAX_TOOL_ROUNDS in every tool-equipped agent. -/
def MAX_TOOL_ROUNDS : Nat := 5

/-- GroqAgent.send: append the user message, then run the tool loop.  The
missing-API-key configuration error is thrown before the user message is
appended and is therefore outside this model.  Note that no failure path of
this agent removes the appended user message. -/
def groqSend (exec : String → Json → String) (oracle : Nat → GroqOutcome)
    (msgs : List GroqMessage) (userMsg : String) : TurnOut GroqMessage :=
  let t := (Turn.start msgs).push { role := "user", content := some userMsg }
  groqRounds exec oracle 0 MAX_TOOL_ROUNDS t

/-! ## Ollama agent with tool calling (src/agents/ollama.js, tool version)

Ollama tool calls follow the OpenAI schema but carry already-parsed argument
objects and no call ids; tool messages record no tool_call_id. -/

structure OllamaFn where
  name : String
  /-- May be absent in the wire object (`tc.function?.arguments`). -/
  arguments : Option Json := none

structure OllamaToolCall where
  function : OllamaFn

structure OllamaMessage where
  role : String
  content : Option String := none
  tool_calls : List OllamaToolCall := []
  /-- Ollama never sets a tool_call_id on its tool messages; the field models
  the absent JavaScript key. -/
  tool_call_id : Option String := none

/-- `const args = tc.function?.arguments || \x7b\x7d`. -/
def ollamaArgsOf (tc : OllamaToolCall) : Json :=
  match tc.function.arguments with
  | some j => if j.truthy then j else Json.obj []
  | none => Json.obj []

/-- Per-round provider behaviour of the non-streaming /api/chat call:
reject with a request-level transport error (which pops the last message),
reject from the response (an `error` body field or a body parse failure,
no pop), or resolve with the parsed message content and tool calls. -/
inductive OllamaOutcome where
  | failTransport (e : String)
  | fail (e : String)
  | reply (content : String) (tool_calls : List OllamaToolCall)

/-- The resolve step of the non-streaming _callApi; an error carries whether
the rejection path popped the last message (only `req.on('error')` does). -/
def ollamaCallApi : OllamaOutcome → Except (Bool × String) (String × Option (List OllamaToolCall))
  | .failTransport e => .error (true, e)
  | .fail e => .error (false, e)
  | .reply content tcs =>
    if tcs.length > 0 then .ok ("", some tcs) else .ok (content, none)

/-- The tool message pushed for one executed Ollama tool call (no id). -/
def ollamaToolMsg (exec : String → Json → String) (tc : OllamaToolCall) : OllamaMessage :=
  { role := "tool", content := some (exec tc.function.name (ollamaArgsOf tc)) }

/-- The assistant message recording the returned tool calls verbatim. -/
def ollamaAssistantToolMsg (tcs : List OllamaToolCall) : OllamaMessage :=
  { role := "assistant", content := some "", tool_calls := tcs }

/-- All messages one Ollama tool round appends. -/
def ollamaRoundBlock (exec : String → Json → String) (tcs : List OllamaToolCall) :
    List OllamaMessage :=
  ollamaAssistantToolMsg tcs :: tcs.map (ollamaToolMsg exec)

/-- Final-text branch of the Ollama send loop. -/
def ollamaTextFinish (t : Turn OllamaMessage) (content : String) : TurnOut OllamaMessage :=
  let t := if content ≠ "" then
    t.push { role := "assistant", content := some content } else t
  .ok t content

/-- The tool-calling loop of OllamaAgent.send. -/
def ollamaRounds (exec : String → Json → String) (oracle : Nat → OllamaOutcome) :
    Nat → Nat → Turn OllamaMessage → TurnOut OllamaMessage
  | _, 0, t => .ok t ""
  | round, fuel + 1, t =>
    match ollamaCallApi (oracle round) with
    | .error (popped, e) => .err (if popped then t.pop else t) e
    | .ok (content, otcs) =>
      match otcs with
      | some tcs =>
        if tcs.length > 0 then
          let t := t.push (ollamaAssistantToolMsg tcs)
          let t := tcs.foldl (fun t tc => t.push (ollamaToolMsg exec tc)) t
          ollamaRounds exec oracle (round + 1) fuel t
        else ollamaTextFinish t content
      | none => ollamaTextFinish t content

/-- The conversation state right before the first round of an Ollama turn:
the user message appended, then the system context prepended once when
present and no system message exists yet. -/
def ollamaInitTurn (sysCtx : Option String) (msgs : List OllamaMessage)
    (userMsg : String) : Turn OllamaMessage :=
  let t := (Turn.start msgs).push { role := "user", content := some userMsg }
  match sysCtx with
  | some s =>
    if s ≠ "" ∧ ¬ t.msgs.any (fun m => m.role = "system") then
      t.pushFront { role := "system", content := some s }
    else t
  | none => t

/-- OllamaAgent.send (tool version). -/
def ollamaSend (exec : String → Json → String) (oracle : Nat → OllamaOutcome)
    (sysCtx : Option String) (msgs : List OllamaMessage) (userMsg : String) :
    TurnOut OllamaMessage :=
  ollamaRounds exec oracle 0 MAX_TOOL_ROUNDS (ollamaInitTurn sysCtx msgs userMsg)

/-! ## Ollama NDJSON streaming (the streaming send of the plain agent)

The response body arrives as chunks; each complete line is one JSON object;
`message.content` tokens are accumulated; an `error` field rejects the call;
malformed lines are skipped; the trailing partial line is buffered and
processed at stream end. -/

structure NdState where
  full : String
  rejected : Option String

/-- Handle one complete NDJSON line (the body of the for-loop over lines):
skip blank lines, skip malformed JSON, append `message.content`, reject on a
truthy `error` field.  After a rejection the promise is settled, so further
processing no longer affects the outcome. -/
def ollamaHandleLine (st : NdState) (line : List Char) : NdState :=
  if st.rejected.isSome then st
  else if trimChars line = [] then st
  else
    match Json.parseChars line with
    | none => st
    | some j =>
      let st :=
        match (j.get "message").bind (fun m => m.get "content") with
        | some v => if v.truthy then { st with full := st.full ++ v.asStr } else st
        | none => st
      match j.get "error" with
      | some e => if e.truthy then { st with rejected := some e.asStr } else st
      | none => st

/-- One data event of the NDJSON stream (state = (fullResponse/rejection,
buffer), matching the two locals of the source). -/
def ollamaFeedChunk (st : NdState × List Char) (chunk : List Char) : NdState × List Char :=
  lineBuffered ollamaHandleLine st chunk

/-- The end event: process the remaining buffer (content only — the end
handler re-parses the trailing line but checks no error field) and resolve,
unless the stream was already rejected. -/
def ollamaFinish (st : NdState × List Char) : Except String String :=
  match st.1.rejected with
  | some e => .error e
  | none =>
    let full :=
      if trimChars st.2 ≠ [] then
        match Json.parseChars st.2 with
        | some j =>
          match (j.get "message").bind (fun m => m.get "content") with
          | some v => if v.truthy then st.1.full ++ v.asStr else st.1.full
          | none => st.1.full
        | none => st.1.full
      else st.1.full
    .ok full

/-- The whole NDJSON response processing of the streaming Ollama send:
fold the data events, then the end event. -/
def ollamaStream (chunks : List String) : Except String String :=
  ollamaFinish (chunks.foldl (fun st c => ollamaFeedChunk st c.data)
    ({ full := "", rejected := none }, []))

/-! ## Claude API agent with tool use (src/agents/claude-api.js, tool version)

Anthropic-style messages: content is a plain string or an ordered list of
content blocks; tool results travel back in a user message of tool_result
blocks. -/

/-- One Anthropic content block. -/
inductive CBlock where
  | text (s : String)
  | tool_use (id : String) (name : String) (input : Json)
  | tool_result (tool_use_id : String) (content : String)

/-- Message content: a string or a block list. -/
inductive CContent where
  | str (s : String)
  | blocks (bs : List CBlock)

structure CMessage where
  role : String
  content : CContent

/-- A finished tool_use block as tracked by the stream state machine. -/
structure CToolUse where
  id : String
  name : String
  input : Json

/-- Per-round provider behaviour of the streaming /v1/messages call, at the
level _callApi resolves it: reject (non-200 status or transport error, both
of which pop the last message first), or the accumulated text and finished
tool_use blocks of the stream. -/
inductive ClaudeOutcome where
  | fail (e : String)
  | stream (text : String) (toolUse : List CToolUse)

/-- The content-block list assembled at stream end: accumulated text (when
non-empty) prepended to the finished tool_use blocks. -/
def claudeContentBlocks (text : String) (tus : List CToolUse) : List CBlock :=
  (if text ≠ "" then [CBlock.text text] else []) ++
    tus.map (fun tu => CBlock.tool_use tu.id tu.name tu.input)

/-- The resolve step of the streaming _callApi:
(text, toolUse-or-null, contentBlocks). -/
def claudeCallApi : ClaudeOutcome →
    Except String (String × Option (List CToolUse) × List CBlock)
  | .fail e => .error e
  | .stream text tus =>
    .ok (text, (if tus.length > 0 then some tus else none), claudeContentBlocks text tus)

/-- The tool_result block for one executed tool use:
`executeTool(tu.name, tu.input || \x7b\x7d)`. -/
def claudeToolResultBlock (exec : String → Json → String) (tu : CToolUse) : CBlock :=
  .tool_result tu.id (exec tu.name (if tu.input.truthy then tu.input else Json.obj []))

/-- All messages one Claude tool round appends: the assistant message with
the round's content blocks, then one user message carrying every
tool_result. -/
def claudeRoundBlock (exec : String → Json → String) (text : String)
    (tus : List CToolUse) : List CMessage :=
  [{ role := "assistant", content := .blocks (claudeContentBlocks text tus) },
   { role := "user", content := .blocks (tus.map (claudeToolResultBlock exec)) }]

/-- Final-text branch of the Claude send loop. -/
def claudeTextFinish (t : Turn CMessage) (text : String) : TurnOut CMessage :=
  let t := if text ≠ "" then t.push { role := "assistant", content := .str text } else t
  .ok t text

/-- The tool-calling loop of the tool-enabled ClaudeApiAgent.send.  Both
rejection paths of _callApi pop the last message before rejecting. -/
def claudeRounds (exec : String → Json → String) (oracle : Nat → ClaudeOutcome) :
    Nat → Nat → Turn CMessage → TurnOut CMessage
  | _, 0, t => .ok t ""
  | round, fuel + 1, t =>
    match claudeCallApi (oracle round) with
    | .error e => .err t.pop e
    | .ok (text, otus, cbs) =>
      match otus with
      | some tus =>
        if tus.length > 0 then
          let t := t.push { role := "assistant", content := .blocks cbs }
          let t := t.push
            { role := "user", content := .blocks (tus.map (claudeToolResultBlock exec)) }
          claudeRounds exec oracle (round + 1) fuel t
        else claudeTextFinish t text
      | none => claudeTextFinish t text

/-- Tool-enabled ClaudeApiAgent.send (the missing-API-key error is thrown
before the user message is appended and is outside this model). -/
def claudeSend (exec : String → Json → String) (oracle : Nat → ClaudeOutcome)
    (msgs : List CMessage) (userMsg : String) : TurnOut CMessage :=
  let t := (Turn.start msgs).push { role := "user", content := .str userMsg }
  claudeRounds exec oracle 0 MAX_TOOL_ROUNDS t

/-! ## The Anthropic SSE state machine of the tool-enabled _callApi

Per parsed `data:` event: text_delta tokens accumulate; a content_block_start
of type tool_use opens an accumulator for that block's id/name and a raw-JSON
buffer; input_json_delta events append to the buffer; content_block_stop
finalizes the block, parsing the buffered JSON and defaulting to the empty
object on parse failure. -/

structure CsState where
  fullText : String
  contentBlocks : List CBlock
  toolUseBlocks : List CToolUse
  currentToolUse : Option (String × String)
  toolInputJson : String

/-- The initial stream state. -/
def CsState.init : CsState :=
  { fullText := "", contentBlocks := [], toolUseBlocks := [],
    currentToolUse := none, toolInputJson := "" }

/-- Process one parsed SSE event (the body of the for-loop over data lines,
with its four sequential checks). -/
def claudeStreamStep (st : CsState) (j : Json) : CsState :=
  let st :=
    if j.getStr "type" = some "content_block_delta" ∧
        ((j.get "delta").bind (fun d => d.getStr "type")) = some "text_delta" then
      { st with fullText :=
          st.fullText ++ (((j.get "delta").bind (fun d => d.getStr "text")).getD "") }
    else st
  let st :=
    if j.getStr "type" = some "content_block_start" ∧
        ((j.get "content_block").bind (fun b => b.getStr "type")) = some "tool_use" then
      { st with
        currentToolUse := some
          ((((j.get "content_block").bind (fun b => b.getStr "id")).getD ""),
           (((j.get "content_block").bind (fun b => b.getStr "name")).getD "")),
        toolInputJson := "" }
    else st
  let st :=
    if j.getStr "type" = some "content_block_delta" ∧
        ((j.get "delta").bind (fun d => d.getStr "type")) = some "input_json_delta" then
      { st with toolInputJson :=
          st.toolInputJson ++
            (((j.get "delta").bind (fun d => d.getStr "partial_json")).getD "") }
    else st
  if j.getStr "type" = some "content_block_stop" ∧ st.currentToolUse.isSome then
    match st.currentToolUse with
    | some (id, name) =>
      let inputSrc := if st.toolInputJson = "" then "\x7b\x7d" else st.toolInputJson
      let input := (Json.parse inputSrc).getD (Json.obj [])
      { st with
        toolUseBlocks := st.toolUseBlocks ++ [⟨id, name, input⟩],
        contentBlocks := st.contentBlocks ++ [.tool_use id name input],
        currentToolUse := none, toolInputJson := "" }
    | none => st
  else st

/-- Run the state machine over a sequence of parsed events and assemble the
end-of-stream result: (text, toolUse-or-null, content blocks with the text
block unshifted in front when text is non-empty). -/
def claudeStreamRun (events : List Json) :
    String × Option (List CToolUse) × List CBlock :=
  let st := events.foldl claudeStreamStep CsState.init
  (st.fullText,
   (if st.toolUseBlocks.length > 0 then some st.toolUseBlocks else none),
   (if st.fullText ≠ "" then CBlock.text st.fullText :: st.contentBlocks
    else st.contentBlocks))

/-! ## The plain (non-tool) ClaudeApiAgent.send (src/agents/claude-api.js)

A single streaming request: on a non-200 status the error body is collected,
the just-appended user message popped, and the call rejected; a transport
error likewise pops and rejects; a 200 stream accumulates text_delta tokens
and resolves, appending the assistant message when non-empty. -/

structure SMessage where
  role : String
  content : String

/-- The per-line handler of the plain send's stream: frame `data: ` lines and
append the token of a content_block_delta/text_delta event; everything else
(blank lines, non-data lines, malformed JSON, other event types)
contributes nothing. -/
def claudeSimpleLine (line : List Char) : List Char :=
  let trimmed := trimChars line
  match trimmed with
  | 'd' :: 'a' :: 't' :: 'a' :: ':' :: ' ' :: data =>
    match Json.parseChars data with
    | none => []
    | some j =>
      if j.getStr "type" = some "content_block_delta" ∧
          ((j.get "delta").bind (fun d => d.getStr "type")) = some "text_delta" then
        (((j.get "delta").bind (fun d => d.getStr "text")).getD "").data
      else []
  | _ => []

/-- What the single HTTP attempt of the plain send does. -/
inductive CsOutcome where
  | response (status : Nat) (chunks : List String)
  | reqError (e : String)

/-- Build the rejection message of the non-200 branch:
`Anthropic API error (status): parsed.error?.message || errorBody`. -/
def claudeApiErrorMsg (status : Nat) (errorBody : String) : String :=
  let detail :=
    match Json.parse errorBody with
    | some p =>
      match (p.get "error").bind (fun e => e.getStr "message") with
      | some m => if m ≠ "" then m else errorBody
      | none => errorBody
    | none => errorBody
  "Anthropic API error (" ++ toString status ++ "): " ++ detail

/-- The plain ClaudeApiAgent.send over an explicit message log. -/
def claudeSimpleSend (msgs : List SMessage) (userMsg : String) (o : CsOutcome) :
    TurnOut SMessage :=
  let t := (Turn.start msgs).push { role := "user", content := userMsg }
  match o with
  | .reqError e => .err t.pop e
  | .response status chunks =>
    if status ≠ 200 then
      let errorBody := String.join chunks
      .err t.pop (claudeApiErrorMsg status errorBody)
    else
      let fin := chunks.foldl (fun st c => processChunk claudeSimpleLine st c.data) ([], [])
      let fullResponse := String.mk fin.1
      let t := if fullResponse ≠ "" then
        t.push { role := "assistant", content := fullResponse } else t
      .ok t fullResponse

/-! ## Tool catalog and format converters (src/tools/definitions.js) -/

/-- One named parameter of a tool's JSON-Schema properties object. -/
structure ToolProp where
  key : String
  type : String
  description : String

/-- One entry of the canonical catalog. -/
structure CatalogTool where
  name : String
  description : String
  properties : List ToolProp
  required : List String

/-- The canonical tool catalog. -/
def TOOL_CATALOG : List CatalogTool :=
  [{ name := "list_files",
     description := "List all available project files in the current working directory. Returns file paths only. Use this to discover what files exist before reading them.",
     properties := [],
     required := [] },
   { name := "read_file",
     description := "Read the contents of a specific project file. Use this to inspect source code, configs, data files, etc.",
     properties := [{ key := "path", type := "string",
                      description := "Relative path to the file, e.g. \"src/ui/banner.js\"" }],
     required := ["path"] },
   { name := "run_command",
     description := "Execute a minigeri command and get its output. Use this to interact with services, check status, send messages, query other AI agents, etc. See the commands instruction file for the full list of available commands.",
     properties := [{ key := "command", type := "string",
                      description := "The full command string to execute, e.g. \"folder\", \"status\", \"slack channels\", \"tg send 123 Hello\"" }],
     required := ["command"] }]

/-- The function entry inside an OpenAI-format tool. -/
structure OpenAIFunction where
  name : String
  description : String
  parameters_type : String
  parameters_properties : List ToolProp
  parameters_required : List String

/-- An OpenAI / Groq / Ollama format tool. -/
structure OpenAITool where
  type : String
  function : OpenAIFunction

/-- Convert to OpenAI / Groq / Ollama function-calling format. -/
def toOpenAITools : List OpenAITool :=
  TOOL_CATALOG.map fun tool =>
    { type := "function",
      function :=
        { name := tool.name, description := tool.description,
          parameters_type := "object",
          parameters_properties := tool.properties,
          parameters_required := tool.required } }

/-- An Anthropic (Claude API) format tool. -/
structure AnthropicTool where
  name : String
  description : String
  input_schema_type : String
  input_schema_properties : List ToolProp
  input_schema_required : List String

/-- Convert to Anthropic tool format. -/
def toAnthropicTools : List AnthropicTool :=
  TOOL_CATALOG.map fun tool =>
    { name := tool.name, description := tool.description,
      input_schema_type := "object",
      input_schema_properties := tool.properties,
      input_schema_required := tool.required }

/-- One function declaration in Gemini format. -/
structure GeminiFunctionDecl where
  name : String
  description : String
  parameters_type : String
  parameters_properties : List ToolProp
  parameters_required : List String

/-- A Gemini tool group. -/
structure GeminiToolGroup where
  functionDeclarations : List GeminiFunctionDecl

/-- Convert to Google Gemini function-calling format: one group wrapping all
declarations, with the schema type and every property type upper-cased. -/
def toGeminiTools : List GeminiToolGroup :=
  [{ functionDeclarations :=
      TOOL_CATALOG.map fun tool =>
        { name := tool.name, description := tool.description,
          parameters_type := "OBJECT",
          parameters_properties := tool.properties.map fun p =>
            { key := p.key, type := jsToUpper p.type, description := p.description },
          parameters_required := tool.required } }]

/-! ## Sandboxed file reading (src/utils/project-files.js) -/

/-- JavaScript `s.split('/')` over a character list. -/
def splitSlash : List Char → List (List Char)
  | [] => [[]]
  | c :: cs =>
    if c = '/' then [] :: splitSlash cs
    else
      match splitSlash cs with
      | [] => [[c]]
      | l :: ls => (c :: l) :: ls

/-- Fold one path segment onto the resolved-segment stack, as Node's
path normalization does for an absolute path: empty and '.' segments vanish,
'..' removes the previous segment (staying at the root when there is none),
anything else is appended. -/
def resolveSeg (stack : List (List Char)) (seg : List Char) : List (List Char) :=
  if seg = [] ∨ seg = ['.'] then stack
  else if seg = ['.', '.'] then stack.dropLast
  else stack ++ [seg]

/-- Node's path.resolve(base, p) for an absolute, already-normalized base:
an absolute p is normalized on its own, otherwise p is joined to base and
the result normalized. -/
def resolvePath (base p : String) : String :=
  let joined :=
    match p.data with
    | '/' :: _ => p.data
    | _ => base.data ++ '/' :: p.data
  let segs := (splitSlash joined).foldl resolveSeg []
  match segs with
  | [] => "/"
  | _ => String.mk ((segs.map (fun s => '/' :: s)).flatten)

/-- `name.toLowerCase() === '.env' || name.toLowerCase().startsWith('.env.')`. -/
def isEnvFile (name : List Char) : Bool :=
  lowerChars name = ".env".data ∨ ".env.".data.isPrefixOf (lowerChars name)

/-- Max size per file when reading (8 KB). -/
def MAX_FILE_SIZE : Nat := 8 * 1024

/-- What the filesystem holds at an absolute path: nothing (statSync throws
with this message), a directory, or a file with its byte size and text
content. -/
inductive FsEntry where
  | missing (errMsg : String)
  | dir
  | file (size : Nat) (content : String)

/-- readProjectFile: resolve the path, deny escapes from the root (by the
source's string-prefix check) and .env files, then read, truncating files
larger than MAX_FILE_SIZE; every filesystem error is returned as an
`[Error: ...]` string, never thrown. -/
def readProjectFile (fs : String → FsEntry) (rootDir filePath : String) : String :=
  let absRoot := resolvePath "/" rootDir
  let absPath := resolvePath absRoot filePath
  if ¬ absRoot.data.isPrefixOf absPath.data then
    "[Error: Access denied — path is outside the project directory]"
  else
    let fileName := (splitSlash filePath.data).getLastD []
    if isEnvFile fileName then
      "[Error: Access denied — .env files are restricted]"
    else
      match fs absPath with
      | .missing errMsg => "[Error: " ++ errMsg ++ "]"
      | .dir => "[Error: Not a file]"
      | .file size content =>
        if size > MAX_FILE_SIZE then
          content.take MAX_FILE_SIZE ++ "\n\n[... file truncated at 8 KB ...]"
        else content

/-! ## The command runner allowlist (src/tools/command-runner.js) -/

/-- The pre-approved command set, in its source (insertion) order. -/
def ALLOWED_COMMANDS : List String :=
  ["claude", "gemini", "groq", "ollama", "wa", "slack", "tg",
   "ngrok", "folder", "status", "theme", "cd"]

/-- Insert into a sorted string list (helper for the default code-unit
Array.sort over command names). -/
def insertSorted (s : String) : List String → List String
  | [] => [s]
  | x :: xs => if charListLe s.data x.data then s :: x :: xs else x :: insertSorted s xs

/-- JavaScript `[...set].sort()` over the command names. -/
def sortStrings (l : List String) : List String :=
  l.foldr insertSorted []

/-- `arr.join(', ')`. -/
def joinComma : List String → String
  | [] => ""
  | [s] => s
  | s :: rest => s ++ ", " ++ joinComma rest

/-- listRegisteredCommands(): registered names that are also allowed,
sorted. -/
def listRegisteredCommands (registry : List String) : List String :=
  sortStrings (registry.filter (fun c => ALLOWED_COMMANDS.contains c))

/-- What runCommand decides before (or instead of) touching a handler:
an error string returned without executing anything, or the dispatch of the
named command with its arguments to the registered handler. -/
inductive RunOutcome where
  | errorMsg (msg : String)
  | executes (cmd : String) (args : List String)

/-- The validation and dispatch logic of runCommand: trim, reject the empty
command, split on whitespace, lower-case the command word, reject anything
not allowlisted (naming the rejected command and the permitted set), reject
allowlisted-but-unregistered commands, else dispatch. -/
def runCommand (registry : List String) (commandString : String) : RunOutcome :=
  let trimmed := trimChars commandString.data
  if trimmed = [] then .errorMsg "[Error: empty command]"
  else
    let parts := wordsChars trimmed
    let cmd := String.mk (lowerChars (parts.headD []))
    let args := parts.tail.map String.mk
    if ¬ ALLOWED_COMMANDS.contains cmd then
      .errorMsg ("[Error: command \"" ++ cmd ++ "\" is not allowed. Permitted commands: "
        ++ joinComma (sortStrings ALLOWED_COMMANDS) ++ "]")
    else if ¬ registry.contains cmd then
      .errorMsg ("[Error: command \"" ++ cmd ++ "\" is allowed but not registered. Available: "
        ++ joinComma (listRegisteredCommands registry) ++ "]")
    else .executes cmd args

/-! ## Projections and invariant definitions used by the theorems -/

/-- The conversation state carried by a turn outcome. -/
def TurnOut.turn {M : Type} : TurnOut M → Turn M
  | .ok t _ => t
  | .err t _ => t

/-- The tool calls a Groq round outcome resolves with ([] on failure). -/
def GroqOutcome.toolCallsOf : GroqOutcome → List GroqToolCall
  | .fail _ => []
  | .reply _ tcs => tcs

/-- The Groq round outcome resolves with a non-empty tool-call list. -/
def GroqOutcome.hasToolCalls : GroqOutcome → Prop
  | .fail _ => False
  | .reply _ tcs => tcs ≠ []

/-- The tool calls an Ollama round outcome resolves with ([] on failure). -/
def OllamaOutcome.toolCallsOf : OllamaOutcome → List OllamaToolCall
  | .failTransport _ => []
  | .fail _ => []
  | .reply _ tcs => tcs

/-- The Ollama round outcome resolves with a non-empty tool-call list. -/
def OllamaOutcome.hasToolCalls : OllamaOutcome → Prop
  | .failTransport _ => False
  | .fail _ => False
  | .reply _ tcs => tcs ≠ []

/-- The text a Claude round outcome streams ("" on failure). -/
def ClaudeOutcome.textOf : ClaudeOutcome → String
  | .fail _ => ""
  | .stream text _ => text

/-- The tool_use blocks a Claude round outcome streams ([] on failure). -/
def ClaudeOutcome.toolUseOf : ClaudeOutcome → List CToolUse
  | .fail _ => []
  | .stream _ tus => tus

/-- The Claude round outcome streams a non-empty tool_use list. -/
def ClaudeOutcome.hasToolCalls : ClaudeOutcome → Prop
  | .fail _ => False
  | .stream _ tus => tus ≠ []

/-- The causal-linking invariant over a message log: every message selected
by `isTool` is preceded in the log by a message related to it by `hasMatch`
(instantiated per provider with "assistant message whose recorded tool-call
list contains an entry matching the tool message's toolCallId"). -/
def Linked {M : Type} (isTool : M → Prop) (hasMatch : M → M → Prop)
    (l : List M) : Prop :=
  ∀ l1 m l2, l = l1 ++ m :: l2 → isTool m → ∃ a ∈ l1, hasMatch a m

/-- A Groq assistant message matching a tool message: assistant role and a
recorded tool-call entry whose id is the tool message's tool_call_id. -/
def groqMatches (a m : GroqMessage) : Prop :=
  a.role = "assistant" ∧ ∃ tc ∈ a.tool_calls, some tc.id = m.tool_call_id

/-- The linking invariant for Groq conversations. -/
def GroqLinked : List GroqMessage → Prop :=
  Linked (fun m => m.role = "tool") groqMatches

/-- An Ollama tool-call entry matches a toolCallId: Ollama entries carry no
explicit ids (the data model's nullable id), so an entry matches exactly the
absent id. -/
def ollamaTcMatches (_tc : OllamaToolCall) : Option String → Prop
  | none => True
  | some _ => False

/-- An Ollama assistant message matching a tool message. -/
def ollamaMatches (a m : OllamaMessage) : Prop :=
  a.role = "assistant" ∧ ∃ tc ∈ a.tool_calls, ollamaTcMatches tc m.tool_call_id

/-- The linking invariant for Ollama conversations. -/
def OllamaLinked : List OllamaMessage → Prop :=
  Linked (fun m => m.role = "tool") ollamaMatches

/-- An invariant holding of the current log and of every intermediate log
reached during the turn. -/
def TurnInv {M : Type} (P : List M → Prop) (t : Turn M) : Prop :=
  P t.msgs ∧ ∀ s ∈ t.trace, P s

/-! ## Properties of the shared line buffering -/

/-- Merge a pending partial line onto the first part of a later split. -/
def glueHead (p : List Char) : List (List Char) → List (List Char)
  | [] => [p]
  | l :: ls => (p ++ l) :: ls

theorem glueHead_ne_nil (p : List Char) (t : List (List Char)) : glueHead p t ≠ [] := by
  cases t <;> simp [glueHead]

theorem splitNl_ne_nil (l : List Char) : splitNl l ≠ [] := by
  cases l with
  | nil => simp [splitNl]
  | cons c cs =>
    simp only [splitNl]
    by_cases hc : c = '\n'
    · simp [hc]
    · simp only [if_neg hc]
      cases h : splitNl cs <;> simp

theorem getLastD_irrel {α : Type} (l : List α) (d1 d2 : α) (h : l ≠ []) :
    l.getLastD d1 = l.getLastD d2 := by
  cases l with
  | nil => exact absurd rfl h
  | cons x xs => rw [List.getLastD_cons, List.getLastD_cons]

theorem dropLast_append_ne {α : Type} (xs ys : List α) (h : ys ≠ []) :
    (xs ++ ys).dropLast = xs ++ ys.dropLast := by
  induction xs with
  | nil => simp
  | cons x xs ih =>
    have hne : xs ++ ys ≠ [] := by
      intro hc
      exact h (List.append_eq_nil.mp hc).2
    rw [List.cons_append, List.dropLast_cons_of_ne_nil hne, ih, List.cons_append]

theorem getLastD_append_ne {α : Type} (xs ys : List α) (d : α) (h : ys ≠ []) :
    (xs ++ ys).getLastD d = ys.getLastD d := by
  induction xs generalizing d with
  | nil => simp
  | cons x xs ih =>
    rw [List.cons_append, List.getLastD_cons]
    exact (ih x).trans (getLastD_irrel ys x d h)

theorem splitNl_cons_nl (cs : List Char) : splitNl ('\n' :: cs) = [] :: splitNl cs := by
  simp [splitNl]

theorem splitNl_cons_other (c : Char) (cs : List Char) (hc : c ≠ '\n')
    (p : List Char) (ps : List (List Char)) (h : splitNl cs = p :: ps) :
    splitNl (c :: cs) = (c :: p) :: ps := by
  simp [splitNl, hc, h]

theorem splitNl_getLastD_not_nl (l : List Char) : '\n' ∉ (splitNl l).getLastD [] := by
  induction l with
  | nil => simp [splitNl]
  | cons c cs ih =>
    by_cases hc : c = '\n'
    · subst hc
      rw [splitNl_cons_nl, List.getLastD_cons]
      exact ih
    · cases h : splitNl cs with
      | nil => exact absurd h (splitNl_ne_nil cs)
      | cons p ps =>
        rw [splitNl_cons_other c cs hc p ps h]
        cases ps with
        | nil =>
          rw [List.getLastD_cons]
          have hp : '\n' ∉ p := by rw [h, List.getLastD_cons] at ih; simpa using ih
          show '\n' ∉ c :: p
          intro hm
          rcases List.mem_cons.mp hm with h1 | h2
          · exact hc h1.symm
          · exact hp h2
        | cons p2 ps2 =>
          rw [List.getLastD_cons]
          rw [h, List.getLastD_cons] at ih
          rwa [getLastD_irrel (p2 :: ps2) (c :: p) p (by simp)]

theorem splitNl_of_not_nl (l : List Char) (h : '\n' ∉ l) : splitNl l = [l] := by
  induction l with
  | nil => rfl
  | cons c cs ih =>
    have hc : c ≠ '\n' := fun hcc => h (hcc ▸ List.mem_cons_self c cs)
    have hcs : '\n' ∉ cs := fun hm => h (List.mem_cons_of_mem c hm)
    exact splitNl_cons_other c cs hc cs [] (ih hcs)

theorem splitNl_append (x y : List Char) :
    splitNl (x ++ y) =
      (splitNl x).dropLast ++ glueHead ((splitNl x).getLastD []) (splitNl y) := by
  induction x with
  | nil =>
    cases h : splitNl y with
    | nil => exact absurd h (splitNl_ne_nil y)
    | cons p ps => simp [splitNl, glueHead, h]
  | cons c cs ih =>
    by_cases hc : c = '\n'
    · subst hc
      have hne := splitNl_ne_nil cs
      rw [List.cons_append, splitNl_cons_nl, splitNl_cons_nl, ih,
        List.dropLast_cons_of_ne_nil hne, List.getLastD_cons, List.cons_append]
    · cases hcs : splitNl cs with
      | nil => exact absurd hcs (splitNl_ne_nil cs)
      | cons p ps =>
        cases hy : splitNl y with
        | nil => exact absurd hy (splitNl_ne_nil y)
        | cons q qs =>
          cases ps with
          | nil =>
            have hcy : splitNl (cs ++ y) = (p ++ q) :: qs := by
              rw [ih, hcs, hy]
              simp [glueHead, List.getLastD_cons]
            rw [List.cons_append, splitNl_cons_other c _ hc _ _ hcy,
              splitNl_cons_other c cs hc p [] hcs]
            simp [glueHead, List.getLastD_cons]
          | cons p2 ps2 =>
            have hcy : splitNl (cs ++ y) =
                p :: ((p2 :: ps2).dropLast ++
                  glueHead ((p2 :: ps2).getLastD p) (q :: qs)) := by
              rw [ih, hcs, hy, List.dropLast_cons_of_ne_nil (by simp),
                List.getLastD_cons, List.cons_append]
            rw [List.cons_append, splitNl_cons_other c _ hc _ _ hcy,
              splitNl_cons_other c cs hc p (p2 :: ps2) hcs]
            conv_rhs => rw [List.dropLast_cons₂, List.getLastD_cons,
              getLastD_irrel (p2 :: ps2) (c :: p) p (by simp), List.cons_append]

/-- Feeding two consecutive chunks is the same as feeding their
concatenation: the core compositionality of the line buffering. -/
theorem lineBuffered_append {σ : Type} (step : σ → List Char → σ)
    (st : σ × List Char) (a b : List Char) :
    lineBuffered step (lineBuffered step st a) b = lineBuffered step st (a ++ b) := by
  obtain ⟨s, buf⟩ := st
  have hpn : '\n' ∉ (splitNl (buf ++ a)).getLastD [] := splitNl_getLastD_not_nl (buf ++ a)
  have hsp := splitNl_of_not_nl _ hpn
  have hgn := glueHead_ne_nil ((splitNl (buf ++ a)).getLastD []) (splitNl b)
  simp only [lineBuffered]
  rw [← List.append_assoc buf a b, splitNl_append (buf ++ a) b,
    splitNl_append ((splitNl (buf ++ a)).getLastD []) b, hsp,
    dropLast_append_ne _ _ hgn, List.foldl_append,
    getLastD_append_ne _ _ _ hgn]
  simp [glueHead]

/-- Folding the chunk handler over any chunk sequence starting from a
newline-free buffer equals one application to the concatenation. -/
theorem foldl_lineBuffered_flatten {σ : Type} (step : σ → List Char → σ)
    (st : σ × List Char) (chunks : List (List Char)) (hn : '\n' ∉ st.2) :
    chunks.foldl (lineBuffered step) st = lineBuffered step st chunks.flatten := by
  induction chunks generalizing st with
  | nil =>
    obtain ⟨s, buf⟩ := st
    simp only [List.foldl_nil, List.flatten_nil, lineBuffered, List.append_nil]
    rw [splitNl_of_not_nl buf hn]
    simp
  | cons a as ih =>
    rw [List.foldl_cons, List.flatten_cons,
      ih (lineBuffered step st a) (splitNl_getLastD_not_nl (st.2 ++ a)),
      lineBuffered_append]

/-- `(String.join l).data` is the concatenation of the chunk data. -/
theorem join_data (l : List String) :
    (String.join l).data = (l.map String.data).flatten := by
  suffices h : ∀ (l : List String) (s : String),
      (l.foldl (fun r t => r ++ t) s).data = s.data ++ (l.map String.data).flatten by
    rw [String.join, h l ""]
    rfl
  intro l
  induction l with
  | nil => simp
  | cons a as ih =>
    intro s
    rw [List.foldl_cons, ih (s ++ a)]
    simp [String.data_append]

/-- C5: for every byte string fed to a streaming adapter (NDJSON or SSE) and
every partition of it into chunks, processing the chunks one at a time
produces the same accumulated state — and hence the same accumulated text —
as processing the whole string as a single chunk: stated for the shared
buffered line framing with an arbitrary per-line handler (the SSE dialects),
for the whole NDJSON Ollama stream, and for the SSE stream of the plain
Claude send. -/
theorem c5_chunking_invariant :
    (∀ (handle : List Char → List Char) (acc : List Char) (chunks : List (List Char)),
        chunks.foldl (processChunk handle) (acc, []) =
          processChunk handle (acc, []) chunks.flatten) ∧
    (∀ chunks : List String, ollamaStream chunks = ollamaStream [String.join chunks]) ∧
    (∀ (msgs : List SMessage) (u : String) (chunks : List String),
        claudeSimpleSend msgs u (.response 200 chunks) =
          claudeSimpleSend msgs u (.response 200 [String.join chunks])) := by
  refine ⟨?_, ?_, ?_⟩
  · intro handle acc chunks
    exact foldl_lineBuffered_flatten _ _ _ (by simp)
  · intro chunks
    simp only [ollamaStream, ollamaFeedChunk]
    congr 1
    rw [← List.foldl_map String.data (lineBuffered ollamaHandleLine),
      foldl_lineBuffered_flatten _ _ _ (by simp), ← join_data]
    simp
  · intro msgs u chunks
    have hfold : ∀ cs : List String,
        cs.foldl (fun st c => processChunk claudeSimpleLine st c.data)
            (([] : List Char), ([] : List Char)) =
          processChunk claudeSimpleLine ([], []) ((String.join cs).data) := by
      intro cs
      simp only [processChunk]
      rw [← List.foldl_map String.data (lineBuffered _),
        foldl_lineBuffered_flatten _ _ _ (by simp), ← join_data]
    simp only [claudeSimpleSend]
    rw [hfold chunks, hfold [String.join chunks]]
    simp [String.join]

/-- C4: each of the three converters preserves every catalog tool's name,
its parameter names, and its required-parameter set unchanged, and alters
type identifiers only in letter case: unchanged for the OpenAI and Anthropic
forms, upper-cased for the Gemini form. -/
theorem c4_converters_preserve_catalog :
    toOpenAITools.map (fun t =>
        (t.function.name,
         t.function.parameters_properties.map (fun p => (p.key, p.type)),
         t.function.parameters_required))
      = TOOL_CATALOG.map (fun t =>
          (t.name, t.properties.map (fun p => (p.key, p.type)), t.required)) ∧
    toAnthropicTools.map (fun t =>
        (t.name,
         t.input_schema_properties.map (fun p => (p.key, p.type)),
         t.input_schema_required))
      = TOOL_CATALOG.map (fun t =>
          (t.name, t.properties.map (fun p => (p.key, p.type)), t.required)) ∧
    toGeminiTools.map (fun g => g.functionDeclarations.map (fun d =>
        (d.name,
         d.parameters_properties.map (fun p => (p.key, p.type)),
         d.parameters_required)))
      = [TOOL_CATALOG.map (fun t =>
          (t.name, t.properties.map (fun p => (p.key, jsToUpper p.type)),
           t.required))] :=
  ⟨by rfl, by rfl, by rfl⟩

/-- C6: the Anthropic-style SSE state machine fed a content_block_start of
type tool_use (id "t1", name "read_file"), two input_json_delta fragments
carrying the halves of the argument JSON, and a content_block_stop yields
exactly one tool-call request with id "t1", name "read_file", and arguments
path = "a.txt"; when the buffered JSON does not parse at content_block_stop
the arguments default to the empty object. -/
theorem c6_sse_tool_use_scenario :
    claudeStreamRun
        [.obj [("type", .str "content_block_start"), ("index", .num 0),
           ("content_block", .obj [("type", .str "tool_use"),
             ("id", .str "t1"), ("name", .str "read_file")])],
         .obj [("type", .str "content_block_delta"),
           ("delta", .obj [("type", .str "input_json_delta"),
             ("partial_json", .str "\x7b\"path\":")])],
         .obj [("type", .str "content_block_delta"),
           ("delta", .obj [("type", .str "input_json_delta"),
             ("partial_json", .str "\"a.txt\"\x7d")])],
         .obj [("type", .str "content_block_stop")]]
      = ("", some [⟨"t1", "read_file", .obj [("path", .str "a.txt")]⟩],
         [.tool_use "t1" "read_file" (.obj [("path", .str "a.txt")])]) ∧
    claudeStreamRun
        [.obj [("type", .str "content_block_start"), ("index", .num 0),
           ("content_block", .obj [("type", .str "tool_use"),
             ("id", .str "t1"), ("name", .str "read_file")])],
         .obj [("type", .str "content_block_delta"),
           ("delta", .obj [("type", .str "input_json_delta"),
             ("partial_json", .str "\x7b\"path\":")])],
         .obj [("type", .str "content_block_stop")]]
      = ("", some [⟨"t1", "read_file", .obj []⟩],
         [.tool_use "t1" "read_file" (.obj [])]) :=
  ⟨by rfl, by rfl⟩

/-- C7: the NDJSON streaming adapter fed the two lines
\x7b"message":\x7b"content":"Hel"\x7d\x7d and
\x7b"message":\x7b"content":"lo"\x7d\x7d resolves with final accumulated
text "Hello"; a malformed JSON line inside the stream is skipped rather
than aborting the call. -/
theorem c7_ndjson_hello_scenario :
    ollamaStream
        ["\x7b\"message\":\x7b\"content\":\"Hel\"\x7d\x7d\n\x7b\"message\":\x7b\"content\":\"lo\"\x7d\x7d\n"]
      = .ok "Hello" ∧
    ollamaStream
        ["\x7b\"message\":\x7b\"content\":\"Hel\"\x7d\x7d\nnot json\x7b\n\x7b\"message\":\x7b\"content\":\"lo\"\x7d\x7d\n"]
      = .ok "Hello" :=
  ⟨by rfl, by rfl⟩

/-- C8: the claim "every path resolving outside the sandbox root is denied"
fails on the code: the containment check is a bare string-prefix test, so
for root /proj the outside path ../projx/x.txt resolves to /projx/x.txt,
passes the check, and the file's contents are returned instead of an
access-denied error.  Paths whose resolved form lacks the prefix, and .env
files, are denied, and the function is total (never throws). -/
theorem c8_sandbox_escape_bug :
    readProjectFile
        (fun p => if p = "/projx/x.txt" then .file 6 "SECRET"
          else .missing "ENOENT: no such file or directory")
        "/proj" "../projx/x.txt" = "SECRET" ∧
    "SECRET" ≠ "[Error: Access denied — path is outside the project directory]" ∧
    readProjectFile
        (fun p => if p = "/projx/x.txt" then .file 6 "SECRET"
          else .missing "ENOENT: no such file or directory")
        "/proj" "../other/x.txt"
      = "[Error: Access denied — path is outside the project directory]" ∧
    readProjectFile
        (fun p => if p = "/projx/x.txt" then .file 6 "SECRET"
          else .missing "ENOENT: no such file or directory")
        "/proj" ".env"
      = "[Error: Access denied — .env files are restricted]" :=
  ⟨by rfl, by decide, by rfl, by rfl⟩

/-- C10: a Groq tool call whose arguments string is not parseable JSON is
executed with the empty object substituted as the arguments, and the tool
message appended to history records the executor's result for that call —
an unparseable arguments string never raises or aborts the turn. -/
theorem c10_unparseable_args (exec : String → Json → String) (tc : GroqToolCall)
    (h : Json.parse tc.function.arguments = none) :
    groqParseArgs tc.function.arguments = Json.obj [] ∧
    groqToolMsg exec tc =
      { role := "tool", content := some (exec tc.function.name (Json.obj [])),
        tool_call_id := some tc.id } := by
  have hargs : groqParseArgs tc.function.arguments = Json.obj [] := by
    unfold groqParseArgs
    by_cases he : tc.function.arguments = ""
    · rw [if_pos he]
      rfl
    · rw [if_neg he]
      simp only [h]
  exact ⟨hargs, by simp [groqToolMsg, hargs]⟩

/-- Witness for C10 at a concrete unparseable arguments string. -/
theorem c10_unparseable_args_witness :
    groqParseArgs "\x7boops" = Json.obj [] ∧
    groqToolMsg (fun n _ => n) ⟨"call_1", ⟨"read_file", "\x7boops"⟩⟩ =
      { role := "tool", content := some "read_file", tool_call_id := some "call_1" } := by
  have h := c10_unparseable_args (fun n _ => n)
    ⟨"call_1", ⟨"read_file", "\x7boops"⟩⟩ (by rfl)
  exact ⟨h.1, by rw [h.2]⟩

/-- C9: a non-empty command whose first word (lower-cased) is not in the
allowlist is rejected with an error string naming the rejected command and
the permitted set, and nothing is dispatched; a dispatch to a handler
happens only for allowlisted, registered commands. -/
theorem c9_run_command_allowlist (registry : List String) (s : String) :
    (trimChars s.data ≠ [] →
      ¬ ALLOWED_COMMANDS.contains
          (String.mk (lowerChars ((wordsChars (trimChars s.data)).headD []))) →
      runCommand registry s = .errorMsg ("[Error: command \""
        ++ String.mk (lowerChars ((wordsChars (trimChars s.data)).headD []))
        ++ "\" is not allowed. Permitted commands: "
        ++ joinComma (sortStrings ALLOWED_COMMANDS) ++ "]")) ∧
    (∀ cmd args, runCommand registry s = .executes cmd args →
      ALLOWED_COMMANDS.contains cmd ∧ registry.contains cmd) := by
  constructor
  · intro h1 h2
    unfold runCommand
    rw [if_neg h1, if_pos h2]
  · intro cmd args h
    unfold runCommand at h
    by_cases h1 : trimChars s.data = []
    · rw [if_pos h1] at h
      exact absurd h (by simp)
    · rw [if_neg h1] at h
      by_cases h2 : ALLOWED_COMMANDS.contains
          (String.mk (lowerChars ((wordsChars (trimChars s.data)).headD [])))
      · rw [if_neg (by simpa using h2)] at h
        by_cases h3 : registry.contains
            (String.mk (lowerChars ((wordsChars (trimChars s.data)).headD [])))
        · rw [if_neg (by simpa using h3)] at h
          obtain ⟨hcmd, _⟩ := RunOutcome.executes.inj h
          rw [← hcmd]
          exact ⟨h2, h3⟩
        · rw [if_pos h3] at h
          exact absurd h (by simp)
      · rw [if_pos h2] at h
        exact absurd h (by simp)

/-- Witness for C9 at a concrete disallowed command. -/
theorem c9_run_command_allowlist_witness :
    runCommand [] "rm -rf /"
      = .errorMsg "[Error: command \"rm\" is not allowed. Permitted commands: cd, claude, folder, gemini, groq, ngrok, ollama, slack, status, tg, theme, wa]" := by
  have h := (c9_run_command_allowlist [] "rm -rf /").1 (by decide) (by decide)
  exact h.trans (by rfl)

/-- C1 counterexample: the Groq adapter performs no rollback at all — a
turn whose API call fails leaves the just-appended user message in history,
so the message count after the failed turn is 1 while it was 0 before. -/
theorem c1_groq_no_rollback_counterexample :
    (groqSend (fun _ _ => "") (fun _ => .fail "Groq API error (500): boom") [] "hi").isErr
      = true ∧
    (groqSend (fun _ _ => "") (fun _ => .fail "Groq API error (500): boom") [] "hi").msgs.length
      = 1 ∧
    ([] : List GroqMessage).length = 0 :=
  ⟨by rfl, by rfl, rfl⟩

/-- C1 amended: the (plain) Claude API adapter removes the just-appended
user message both on a non-success HTTP status and on a transport error, so
the message count after such a failed turn equals the count before; the
Groq adapter performs no rollback, so after a failed turn its count is one
greater than before the turn. -/
theorem c1_rollback_amended :
    (∀ (msgs : List SMessage) (u : String) (status : Nat) (chunks : List String),
        status ≠ 200 →
        (claudeSimpleSend msgs u (.response status chunks)).msgs.length = msgs.length) ∧
    (∀ (msgs : List SMessage) (u e : String),
        (claudeSimpleSend msgs u (.reqError e)).msgs.length = msgs.length) ∧
    (∀ (exec : String → Json → String) (e : String) (msgs : List GroqMessage) (u : String),
        (groqSend exec (fun _ => .fail e) msgs u).isErr = true ∧
        (groqSend exec (fun _ => .fail e) msgs u).msgs.length = msgs.length + 1) := by
  refine ⟨?_, ?_, ?_⟩
  · intro msgs u status chunks hst
    simp [claudeSimpleSend, Turn.start, Turn.push, Turn.pop, TurnOut.msgs, hst]
  · intro msgs u e
    simp [claudeSimpleSend, Turn.start, Turn.push, Turn.pop, TurnOut.msgs]
  · intro exec e msgs u
    have h : groqSend exec (fun _ => .fail e) msgs u =
        .err ((Turn.start msgs).push { role := "user", content := some u }) e := rfl
    rw [h]
    exact ⟨rfl, by simp [Turn.start, Turn.push, TurnOut.msgs]⟩

/-- Witness for C1 (amended) at concrete failing turns. -/
theorem c1_rollback_amended_witness :
    (claudeSimpleSend [] "hi" (.response 500 [])).msgs.length = 0 ∧
    (groqSend (fun _ _ => "") (fun _ => .fail "boom") [] "hi").msgs.length = 1 := by
  refine ⟨c1_rollback_amended.1 [] "hi" 500 [] (by decide), ?_⟩
  have h := (c1_rollback_amended.2.2 (fun _ _ => "") "boom" [] "hi").2
  simpa using h

/-! ## Turn-state lemmas -/

theorem Turn.pushAll_cons {M : Type} (t : Turn M) (m : M) (ms : List M) :
    t.pushAll (m :: ms) = (t.push m).pushAll ms := rfl

theorem Turn.pushAll_append {M : Type} (t : Turn M) (a b : List M) :
    t.pushAll (a ++ b) = (t.pushAll a).pushAll b :=
  List.foldl_append _ _ _ _

theorem Turn.pushAll_msgs {M : Type} (t : Turn M) (ms : List M) :
    (t.pushAll ms).msgs = t.msgs ++ ms := by
  induction ms generalizing t with
  | nil => simp [Turn.pushAll]
  | cons m ms ih =>
    rw [Turn.pushAll_cons, ih]
    simp [Turn.push]

theorem foldl_push_map {M A : Type} (f : A → M) (l : List A) (t : Turn M) :
    l.foldl (fun t a => t.push (f a)) t = t.pushAll (l.map f) := by
  rw [Turn.pushAll, List.foldl_map]

/-! ## The tool-loop ceiling (round limit) of the three tool-equipped agents -/

theorem groqRounds_step_tools (exec : String → Json → String)
    (oracle : Nat → GroqOutcome) (round fuel : Nat) (t : Turn GroqMessage)
    (c : String) (tcs : List GroqToolCall)
    (ho : oracle round = .reply c tcs) (hlen : 0 < tcs.length) :
    groqRounds exec oracle round (fuel + 1) t =
      groqRounds exec oracle (round + 1) fuel (t.pushAll (groqRoundBlock exec tcs)) := by
  simp only [groqRounds, ho, groqCallApi, if_pos hlen]
  rw [foldl_push_map]
  rfl

theorem groqRounds_ceiling (exec : String → Json → String)
    (oracle : Nat → GroqOutcome) (fuel round : Nat) (t : Turn GroqMessage)
    (h : ∀ r, round ≤ r → r < round + fuel → (oracle r).hasToolCalls) :
    groqRounds exec oracle round fuel t =
      .ok (t.pushAll (((List.range' round fuel).map
        (fun r => groqRoundBlock exec ((oracle r).toolCallsOf))).flatten)) "" := by
  induction fuel generalizing round t with
  | zero => rfl
  | succ fuel ih =>
    have hr := h round (Nat.le_refl _) (by omega)
    cases ho : oracle round with
    | fail e => rw [ho] at hr; exact absurd hr (by simp [GroqOutcome.hasToolCalls])
    | reply c tcs =>
      rw [ho] at hr
      have hne : tcs ≠ [] := hr
      have hlen : 0 < tcs.length := List.length_pos.mpr hne
      rw [groqRounds_step_tools exec oracle round fuel t c tcs ho hlen,
        ih (round + 1) _ (fun r hr1 hr2 => h r (by omega) (by omega)),
        ← Turn.pushAll_append, List.range'_succ, List.map_cons, List.flatten_cons, ho]
      rfl

theorem ollamaRounds_step_tools (exec : String → Json → String)
    (oracle : Nat → OllamaOutcome) (round fuel : Nat) (t : Turn OllamaMessage)
    (c : String) (tcs : List OllamaToolCall)
    (ho : oracle round = .reply c tcs) (hlen : 0 < tcs.length) :
    ollamaRounds exec oracle round (fuel + 1) t =
      ollamaRounds exec oracle (round + 1) fuel (t.pushAll (ollamaRoundBlock exec tcs)) := by
  simp only [ollamaRounds, ho, ollamaCallApi, if_pos hlen]
  rw [foldl_push_map]
  rfl

theorem ollamaRounds_ceiling (exec : String → Json → String)
    (oracle : Nat → OllamaOutcome) (fuel round : Nat) (t : Turn OllamaMessage)
    (h : ∀ r, round ≤ r → r < round + fuel → (oracle r).hasToolCalls) :
    ollamaRounds exec oracle round fuel t =
      .ok (t.pushAll (((List.range' round fuel).map
        (fun r => ollamaRoundBlock exec ((oracle r).toolCallsOf))).flatten)) "" := by
  induction fuel generalizing round t with
  | zero => rfl
  | succ fuel ih =>
    have hr := h round (Nat.le_refl _) (by omega)
    cases ho : oracle round with
    | failTransport e =>
      rw [ho] at hr; exact absurd hr (by simp [OllamaOutcome.hasToolCalls])
    | fail e => rw [ho] at hr; exact absurd hr (by simp [OllamaOutcome.hasToolCalls])
    | reply c tcs =>
      rw [ho] at hr
      have hlen : 0 < tcs.length := List.length_pos.mpr hr
      rw [ollamaRounds_step_tools exec oracle round fuel t c tcs ho hlen,
        ih (round + 1) _ (fun r hr1 hr2 => h r (by omega) (by omega)),
        ← Turn.pushAll_append, List.range'_succ, List.map_cons, List.flatten_cons, ho]
      rfl

theorem claudeRounds_step_tools (exec : String → Json → String)
    (oracle : Nat → ClaudeOutcome) (round fuel : Nat) (t : Turn CMessage)
    (text : String) (tus : List CToolUse)
    (ho : oracle round = .stream text tus) (hlen : 0 < tus.length) :
    claudeRounds exec oracle round (fuel + 1) t =
      claudeRounds exec oracle (round + 1) fuel
        (t.pushAll (claudeRoundBlock exec text tus)) := by
  simp only [claudeRounds, ho, claudeCallApi, if_pos hlen]
  rfl

theorem claudeRounds_ceiling (exec : String → Json → String)
    (oracle : Nat → ClaudeOutcome) (fuel round : Nat) (t : Turn CMessage)
    (h : ∀ r, round ≤ r → r < round + fuel → (oracle r).hasToolCalls) :
    claudeRounds exec oracle round fuel t =
      .ok (t.pushAll (((List.range' round fuel).map
        (fun r => claudeRoundBlock exec ((oracle r).textOf) ((oracle r).toolUseOf))).flatten))
        "" := by
  induction fuel generalizing round t with
  | zero => rfl
  | succ fuel ih =>
    have hr := h round (Nat.le_refl _) (by omega)
    cases ho : oracle round with
    | fail e => rw [ho] at hr; exact absurd hr (by simp [ClaudeOutcome.hasToolCalls])
    | stream text tus =>
      rw [ho] at hr
      have hlen : 0 < tus.length := List.length_pos.mpr hr
      rw [claudeRounds_step_tools exec oracle round fuel t text tus ho hlen,
        ih (round + 1) _ (fun r hr1 hr2 => h r (by omega) (by omega)),
        ← Turn.pushAll_append, List.range'_succ, List.map_cons, List.flatten_cons, ho]
      rfl

/-! ## The loop consults the provider only on rounds below the ceiling -/

theorem groqRounds_congr (exec : String → Json → String)
    (o1 o2 : Nat → GroqOutcome) (fuel round : Nat) (t : Turn GroqMessage)
    (h : ∀ r, round ≤ r → r < round + fuel → o1 r = o2 r) :
    groqRounds exec o1 round fuel t = groqRounds exec o2 round fuel t := by
  induction fuel generalizing round t with
  | zero => rfl
  | succ fuel ih =>
    have h0 : o1 round = o2 round := h round (Nat.le_refl _) (by omega)
    simp only [groqRounds, h0]
    cases groqCallApi (o2 round) with
    | error e => rfl
    | ok pr =>
      obtain ⟨content, otcs⟩ := pr
      cases otcs with
      | none => rfl
      | some tcs =>
        by_cases hlen : tcs.length > 0
        · simp only [if_pos hlen]
          exact ih (round + 1) _ (fun r h1 h2 => h r (by omega) (by omega))
        · simp only [if_neg hlen]

theorem ollamaRounds_congr (exec : String → Json → String)
    (o1 o2 : Nat → OllamaOutcome) (fuel round : Nat) (t : Turn OllamaMessage)
    (h : ∀ r, round ≤ r → r < round + fuel → o1 r = o2 r) :
    ollamaRounds exec o1 round fuel t = ollamaRounds exec o2 round fuel t := by
  induction fuel generalizing round t with
  | zero => rfl
  | succ fuel ih =>
    have h0 : o1 round = o2 round := h round (Nat.le_refl _) (by omega)
    simp only [ollamaRounds, h0]
    cases ollamaCallApi (o2 round) with
    | error e => rfl
    | ok pr =>
      obtain ⟨content, otcs⟩ := pr
      cases otcs with
      | none => rfl
      | some tcs =>
        by_cases hlen : tcs.length > 0
        · simp only [if_pos hlen]
          exact ih (round + 1) _ (fun r h1 h2 => h r (by omega) (by omega))
        · simp only [if_neg hlen]

theorem claudeRounds_congr (exec : String → Json → String)
    (o1 o2 : Nat → ClaudeOutcome) (fuel round : Nat) (t : Turn CMessage)
    (h : ∀ r, round ≤ r → r < round + fuel → o1 r = o2 r) :
    claudeRounds exec o1 round fuel t = claudeRounds exec o2 round fuel t := by
  induction fuel generalizing round t with
  | zero => rfl
  | succ fuel ih =>
    have h0 : o1 round = o2 round := h round (Nat.le_refl _) (by omega)
    simp only [claudeRounds, h0]
    cases claudeCallApi (o2 round) with
    | error e => rfl
    | ok pr =>
      obtain ⟨text, rest⟩ := pr
      obtain ⟨otus, cbs⟩ := rest
      cases otus with
      | none => rfl
      | some tus =>
        by_cases hlen : tus.length > 0
        · simp only [if_pos hlen]
          exact ih (round + 1) _ (fun r h1 h2 => h r (by omega) (by omega))
        · simp only [if_neg hlen]

/-- C2: for each tool-equipped agent (Groq, Ollama, Claude API) the
model-request/tool-execution loop runs at most MAX_TOOL_ROUNDS = 5 rounds:
two providers agreeing on rounds 0..4 produce identical turns; and when the
provider returns tool calls on every round, the ceiling is reached and
send() resolves — it does not throw — with the empty string, while the tool
results appended during those rounds remain in history. -/
theorem c2_tool_loop_ceiling :
    ((∀ (exec : String → Json → String) (o1 o2 : Nat → GroqOutcome)
        (msgs : List GroqMessage) (u : String),
        (∀ r, r < MAX_TOOL_ROUNDS → o1 r = o2 r) →
        groqSend exec o1 msgs u = groqSend exec o2 msgs u) ∧
     (∀ (exec : String → Json → String) (oracle : Nat → GroqOutcome)
        (msgs : List GroqMessage) (u : String),
        (∀ r, r < MAX_TOOL_ROUNDS → (oracle r).hasToolCalls) →
        (groqSend exec oracle msgs u).answer = some "" ∧
        (groqSend exec oracle msgs u).msgs =
          (msgs ++ [{ role := "user", content := some u }]) ++
            ((List.range MAX_TOOL_ROUNDS).map
              (fun r => groqRoundBlock exec ((oracle r).toolCallsOf))).flatten)) ∧
    ((∀ (exec : String → Json → String) (o1 o2 : Nat → OllamaOutcome)
        (sysCtx : Option String) (msgs : List OllamaMessage) (u : String),
        (∀ r, r < MAX_TOOL_ROUNDS → o1 r = o2 r) →
        ollamaSend exec o1 sysCtx msgs u = ollamaSend exec o2 sysCtx msgs u) ∧
     (∀ (exec : String → Json → String) (oracle : Nat → OllamaOutcome)
        (sysCtx : Option String) (msgs : List OllamaMessage) (u : String),
        (∀ r, r < MAX_TOOL_ROUNDS → (oracle r).hasToolCalls) →
        (ollamaSend exec oracle sysCtx msgs u).answer = some "" ∧
        (ollamaSend exec oracle sysCtx msgs u).msgs =
          (ollamaInitTurn sysCtx msgs u).msgs ++
            ((List.range MAX_TOOL_ROUNDS).map
              (fun r => ollamaRoundBlock exec ((oracle r).toolCallsOf))).flatten)) ∧
    ((∀ (exec : String → Json → String) (o1 o2 : Nat → ClaudeOutcome)
        (msgs : List CMessage) (u : String),
        (∀ r, r < MAX_TOOL_ROUNDS → o1 r = o2 r) →
        claudeSend exec o1 msgs u = claudeSend exec o2 msgs u) ∧
     (∀ (exec : String → Json → String) (oracle : Nat → ClaudeOutcome)
        (msgs : List CMessage) (u : String),
        (∀ r, r < MAX_TOOL_ROUNDS → (oracle r).hasToolCalls) →
        (claudeSend exec oracle msgs u).answer = some "" ∧
        (claudeSend exec oracle msgs u).msgs =
          (msgs ++ [{ role := "user", content := .str u }]) ++
            ((List.range MAX_TOOL_ROUNDS).map (fun r =>
              claudeRoundBlock exec ((oracle r).textOf) ((oracle r).toolUseOf))).flatten)) := by
  refine ⟨⟨?_, ?_⟩, ⟨?_, ?_⟩, ⟨?_, ?_⟩⟩
  · intro exec o1 o2 msgs u h
    exact groqRounds_congr exec o1 o2 MAX_TOOL_ROUNDS 0 _
      (fun r _ h2 => h r (by omega))
  · intro exec oracle msgs u h
    have hc := groqRounds_ceiling exec oracle MAX_TOOL_ROUNDS 0
      ((Turn.start msgs).push { role := "user", content := some u })
      (fun r _ h2 => h r (by omega))
    constructor
    · show (groqRounds exec oracle 0 MAX_TOOL_ROUNDS _).answer = some ""
      rw [hc]
      rfl
    · show (groqRounds exec oracle 0 MAX_TOOL_ROUNDS _).msgs = _
      rw [hc, List.range_eq_range']
      show (Turn.pushAll _ _).msgs = _
      rw [Turn.pushAll_msgs]
      rfl
  · intro exec o1 o2 sysCtx msgs u h
    exact ollamaRounds_congr exec o1 o2 MAX_TOOL_ROUNDS 0 _
      (fun r _ h2 => h r (by omega))
  · intro exec oracle sysCtx msgs u h
    have hc := ollamaRounds_ceiling exec oracle MAX_TOOL_ROUNDS 0
      (ollamaInitTurn sysCtx msgs u) (fun r _ h2 => h r (by omega))
    constructor
    · show (ollamaRounds exec oracle 0 MAX_TOOL_ROUNDS _).answer = some ""
      rw [hc]
      rfl
    · show (ollamaRounds exec oracle 0 MAX_TOOL_ROUNDS _).msgs = _
      rw [hc, List.range_eq_range']
      show (Turn.pushAll _ _).msgs = _
      rw [Turn.pushAll_msgs]
  · intro exec o1 o2 msgs u h
    exact claudeRounds_congr exec o1 o2 MAX_TOOL_ROUNDS 0 _
      (fun r _ h2 => h r (by omega))
  · intro exec oracle msgs u h
    have hc := claudeRounds_ceiling exec oracle MAX_TOOL_ROUNDS 0
      ((Turn.start msgs).push { role := "user", content := .str u })
      (fun r _ h2 => h r (by omega))
    constructor
    · show (claudeRounds exec oracle 0 MAX_TOOL_ROUNDS _).answer = some ""
      rw [hc]
      rfl
    · show (claudeRounds exec oracle 0 MAX_TOOL_ROUNDS _).msgs = _
      rw [hc, List.range_eq_range']
      show (Turn.pushAll _ _).msgs = _
      rw [Turn.pushAll_msgs]
      rfl

/-- Witness for C2: providers that return tool calls on every round make
each agent's send() resolve with the empty string. -/
theorem c2_tool_loop_ceiling_witness :
    (groqSend (fun _ _ => "r")
        (fun _ => .reply "" [⟨"id1", ⟨"list_files", ""⟩⟩]) [] "hi").answer = some "" ∧
    (ollamaSend (fun _ _ => "r")
        (fun _ => .reply "" [⟨⟨"list_files", none⟩⟩]) none [] "hi").answer = some "" ∧
    (claudeSend (fun _ _ => "r")
        (fun _ => .stream "" [⟨"t1", "list_files", .obj []⟩]) [] "hi").answer = some "" := by
  refine ⟨(c2_tool_loop_ceiling.1.2 _ _ [] "hi" ?_).1,
    (c2_tool_loop_ceiling.2.1.2 _ _ none [] "hi" ?_).1,
    (c2_tool_loop_ceiling.2.2.2 _ _ [] "hi" ?_).1⟩
  · intro r _
    simp [GroqOutcome.hasToolCalls]
  · intro r _
    simp [OllamaOutcome.hasToolCalls]
  · intro r _
    simp [ClaudeOutcome.hasToolCalls]

/-! ## The tool-message linking invariant (C3) -/

theorem snoc_eq_append_cons {α : Type} (l : List α) (m : α) (l1 : List α)
    (x : α) (l2 : List α) (h : l ++ [m] = l1 ++ x :: l2) :
    (l1 = l ∧ x = m ∧ l2 = []) ∨ ∃ l2', l2 = l2' ++ [m] ∧ l = l1 ++ x :: l2' := by
  induction l generalizing l1 with
  | nil =>
    cases l1 with
    | nil =>
      simp only [List.nil_append] at h
      obtain ⟨hx, hl⟩ := List.cons.inj h
      exact Or.inl ⟨rfl, hx.symm, hl.symm⟩
    | cons y l1' =>
      rw [List.nil_append, List.cons_append] at h
      obtain ⟨_, hrest⟩ := List.cons.inj h
      exact absurd hrest.symm (by simp)
  | cons z l ih =>
    cases l1 with
    | nil =>
      rw [List.cons_append, List.nil_append] at h
      obtain ⟨hz, hrest⟩ := List.cons.inj h
      exact Or.inr ⟨l, hrest.symm, by rw [List.nil_append, hz]⟩
    | cons y l1' =>
      rw [List.cons_append, List.cons_append] at h
      obtain ⟨hz, hrest⟩ := List.cons.inj h
      rcases ih l1' hrest with ⟨h1, h2, h3⟩ | ⟨l2', hl2, hl⟩
      · exact Or.inl ⟨by rw [hz, h1], h2, h3⟩
      · exact Or.inr ⟨l2', hl2, by rw [List.cons_append, hz, hl]⟩

theorem linked_nil {M : Type} (isTool : M → Prop) (hm : M → M → Prop) :
    Linked isTool hm [] := by
  intro l1 m l2 h _
  exact absurd h (by simp)

theorem Linked.snoc {M : Type} {isTool : M → Prop} {hm : M → M → Prop}
    {l : List M} {m : M} (hl : Linked isTool hm l)
    (h : isTool m → ∃ a ∈ l, hm a m) : Linked isTool hm (l ++ [m]) := by
  intro l1 x l2 heq hx
  rcases snoc_eq_append_cons l m l1 x l2 heq with ⟨h1, h2, _⟩ | ⟨l2', _, hl'⟩
  · subst h1
    obtain ⟨a, ha, hma⟩ := h (h2 ▸ hx)
    exact ⟨a, ha, h2 ▸ hma⟩
  · exact hl l1 x l2' hl' hx

theorem Linked.cons_front {M : Type} {isTool : M → Prop} {hm : M → M → Prop}
    {l : List M} {x : M} (hl : Linked isTool hm l) (hx : ¬ isTool x) :
    Linked isTool hm (x :: l) := by
  intro l1 m l2 heq hm'
  cases l1 with
  | nil =>
    rw [List.nil_append] at heq
    obtain ⟨h1, _⟩ := List.cons.inj heq
    exact absurd (h1 ▸ hm') hx
  | cons y l1' =>
    rw [List.cons_append] at heq
    obtain ⟨_, hrest⟩ := List.cons.inj heq
    obtain ⟨a, ha, hma⟩ := hl l1' m l2 hrest hm'
    exact ⟨a, List.mem_cons_of_mem y ha, hma⟩

theorem Linked.of_append {M : Type} {isTool : M → Prop} {hm : M → M → Prop}
    {l lr : List M} (hl : Linked isTool hm (l ++ lr)) : Linked isTool hm l := by
  intro l1 m l2 heq hm'
  exact hl l1 m (l2 ++ lr) (by simp [heq]) hm'

theorem Linked.dropLast_of {M : Type} {isTool : M → Prop} {hm : M → M → Prop}
    {l : List M} (hl : Linked isTool hm l) : Linked isTool hm l.dropLast := by
  by_cases hn : l = []
  · subst hn
    simpa using hl
  · have hd := List.dropLast_append_getLast hn
    exact @Linked.of_append _ _ _ l.dropLast [l.getLast hn] (by rwa [hd])

/-! ## Invariant preservation through the turn state -/

theorem TurnInv.start {M : Type} {P : List M → Prop} {msgs : List M}
    (h : P msgs) : TurnInv P (Turn.start msgs) := by
  refine ⟨h, ?_⟩
  intro s hs
  simp [Turn.start] at hs

theorem TurnInv.push {M : Type} {P : List M → Prop} {t : Turn M} {m : M}
    (ht : TurnInv P t) (h : P (t.msgs ++ [m])) : TurnInv P (t.push m) := by
  refine ⟨h, ?_⟩
  intro s hs
  simp only [Turn.push, List.mem_append, List.mem_singleton] at hs
  rcases hs with hs | hs
  · exact ht.2 s hs
  · rwa [hs]

theorem TurnInv.pushFront {M : Type} {P : List M → Prop} {t : Turn M} {m : M}
    (ht : TurnInv P t) (h : P (m :: t.msgs)) : TurnInv P (t.pushFront m) := by
  refine ⟨h, ?_⟩
  intro s hs
  simp only [Turn.pushFront, List.mem_append, List.mem_singleton] at hs
  rcases hs with hs | hs
  · exact ht.2 s hs
  · rwa [hs]

theorem TurnInv.pop {M : Type} {P : List M → Prop} {t : Turn M}
    (ht : TurnInv P t) (h : P t.msgs.dropLast) : TurnInv P t.pop := by
  refine ⟨h, ?_⟩
  intro s hs
  simp only [Turn.pop, List.mem_append, List.mem_singleton] at hs
  rcases hs with hs | hs
  · exact ht.2 s hs
  · rwa [hs]

theorem Turn.mem_push {M : Type} {t : Turn M} {a m : M} (h : a ∈ t.msgs) :
    a ∈ (t.push m).msgs :=
  List.mem_append_left _ h

theorem TurnOut.msgs_turn {M : Type} (o : TurnOut M) : o.msgs = o.turn.msgs := by
  cases o <;> rfl

theorem TurnOut.trace_turn {M : Type} (o : TurnOut M) : o.trace = o.turn.trace := by
  cases o <;> rfl

/-! ## The linking invariant through the Groq loop -/

theorem groqToolFold_inv (exec : String → Json → String)
    (all tcs : List GroqToolCall) (t : Turn GroqMessage)
    (ht : TurnInv GroqLinked t) (ha : groqAssistantToolMsg all ∈ t.msgs)
    (hsub : ∀ tc ∈ tcs, tc ∈ all) :
    TurnInv GroqLinked (tcs.foldl (fun t tc => t.push (groqToolMsg exec tc)) t) ∧
      groqAssistantToolMsg all ∈
        (tcs.foldl (fun t tc => t.push (groqToolMsg exec tc)) t).msgs := by
  induction tcs generalizing t with
  | nil => exact ⟨ht, ha⟩
  | cons tc tcs ih =>
    rw [List.foldl_cons]
    apply ih
    · refine TurnInv.push ht (Linked.snoc ht.1 ?_)
      intro _
      refine ⟨groqAssistantToolMsg all, ha, rfl, ?_⟩
      exact ⟨tc, hsub tc (List.mem_cons_self _ _), rfl⟩
    · exact Turn.mem_push ha
    · intro tc' h'
      exact hsub tc' (List.mem_cons_of_mem _ h')

theorem groqTextFinish_inv (t : Turn GroqMessage) (content : String)
    (ht : TurnInv GroqLinked t) :
    TurnInv GroqLinked (groqTextFinish t content).turn := by
  unfold groqTextFinish
  show TurnInv GroqLinked (if content ≠ "" then
    t.push { role := "assistant", content := some content } else t)
  by_cases hcnt : content ≠ ""
  · rw [if_pos hcnt]
    exact TurnInv.push ht (Linked.snoc ht.1 (fun habs => absurd habs (by simp)))
  · rw [if_neg hcnt]
    exact ht

theorem groqRounds_inv (exec : String → Json → String)
    (oracle : Nat → GroqOutcome) (fuel round : Nat) (t : Turn GroqMessage)
    (ht : TurnInv GroqLinked t) :
    TurnInv GroqLinked (groqRounds exec oracle round fuel t).turn := by
  induction fuel generalizing round t with
  | zero => exact ht
  | succ fuel ih =>
    cases hc : groqCallApi (oracle round) with
    | error e =>
      simp only [groqRounds, hc]
      exact ht
    | ok pr =>
      obtain ⟨content, otcs⟩ := pr
      cases otcs with
      | none =>
        simp only [groqRounds, hc]
        exact groqTextFinish_inv t content ht
      | some tcs =>
        simp only [groqRounds, hc]
        by_cases hlen : tcs.length > 0
        · rw [if_pos hlen]
          apply ih
          have hasst : TurnInv GroqLinked (t.push (groqAssistantToolMsg tcs)) :=
            TurnInv.push ht (Linked.snoc ht.1
              (fun habs => absurd habs (by simp [groqAssistantToolMsg])))
          exact (groqToolFold_inv exec tcs tcs _ hasst (by simp [Turn.push])
            (fun tc h => h)).1
        · rw [if_neg hlen]
          exact groqTextFinish_inv t content ht

theorem groqSend_inv (exec : String → Json → String) (oracle : Nat → GroqOutcome)
    (msgs : List GroqMessage) (u : String) (h : GroqLinked msgs) :
    TurnInv GroqLinked (groqSend exec oracle msgs u).turn := by
  apply groqRounds_inv
  exact TurnInv.push (TurnInv.start h)
    (Linked.snoc h (fun habs => absurd habs (by simp)))

/-! ## The linking invariant through the Ollama loop -/

theorem ollamaToolFold_inv (exec : String → Json → String)
    (all tcs : List OllamaToolCall) (t : Turn OllamaMessage)
    (ht : TurnInv OllamaLinked t) (ha : ollamaAssistantToolMsg all ∈ t.msgs)
    (hsub : ∀ tc ∈ tcs, tc ∈ all) :
    TurnInv OllamaLinked (tcs.foldl (fun t tc => t.push (ollamaToolMsg exec tc)) t) ∧
      ollamaAssistantToolMsg all ∈
        (tcs.foldl (fun t tc => t.push (ollamaToolMsg exec tc)) t).msgs := by
  induction tcs generalizing t with
  | nil => exact ⟨ht, ha⟩
  | cons tc tcs ih =>
    rw [List.foldl_cons]
    apply ih
    · refine TurnInv.push ht (Linked.snoc ht.1 ?_)
      intro _
      refine ⟨ollamaAssistantToolMsg all, ha, rfl, ?_⟩
      exact ⟨tc, hsub tc (List.mem_cons_self _ _), trivial⟩
    · exact Turn.mem_push ha
    · intro tc' h'
      exact hsub tc' (List.mem_cons_of_mem _ h')

theorem ollamaTextFinish_inv (t : Turn OllamaMessage) (content : String)
    (ht : TurnInv OllamaLinked t) :
    TurnInv OllamaLinked (ollamaTextFinish t content).turn := by
  unfold ollamaTextFinish
  show TurnInv OllamaLinked (if content ≠ "" then
    t.push { role := "assistant", content := some content } else t)
  by_cases hcnt : content ≠ ""
  · rw [if_pos hcnt]
    exact TurnInv.push ht (Linked.snoc ht.1 (fun habs => absurd habs (by simp)))
  · rw [if_neg hcnt]
    exact ht

theorem ollamaRounds_inv (exec : String → Json → String)
    (oracle : Nat → OllamaOutcome) (fuel round : Nat) (t : Turn OllamaMessage)
    (ht : TurnInv OllamaLinked t) :
    TurnInv OllamaLinked (ollamaRounds exec oracle round fuel t).turn := by
  induction fuel generalizing round t with
  | zero => exact ht
  | succ fuel ih =>
    cases hc : ollamaCallApi (oracle round) with
    | error pe =>
      obtain ⟨popped, e⟩ := pe
      simp only [ollamaRounds, hc]
      cases popped with
      | false => exact ht
      | true => exact TurnInv.pop ht ht.1.dropLast_of
    | ok pr =>
      obtain ⟨content, otcs⟩ := pr
      cases otcs with
      | none =>
        simp only [ollamaRounds, hc]
        exact ollamaTextFinish_inv t content ht
      | some tcs =>
        simp only [ollamaRounds, hc]
        by_cases hlen : tcs.length > 0
        · rw [if_pos hlen]
          apply ih
          have hasst : TurnInv OllamaLinked (t.push (ollamaAssistantToolMsg tcs)) :=
            TurnInv.push ht (Linked.snoc ht.1
              (fun habs => absurd habs (by simp [ollamaAssistantToolMsg])))
          exact (ollamaToolFold_inv exec tcs tcs _ hasst (by simp [Turn.push])
            (fun tc h => h)).1
        · rw [if_neg hlen]
          exact ollamaTextFinish_inv t content ht

theorem ollamaInitTurn_inv (sysCtx : Option String) (msgs : List OllamaMessage)
    (u : String) (h : OllamaLinked msgs) :
    TurnInv OllamaLinked (ollamaInitTurn sysCtx msgs u) := by
  unfold ollamaInitTurn
  have h1 : TurnInv OllamaLinked
      ((Turn.start msgs).push { role := "user", content := some u }) :=
    TurnInv.push (TurnInv.start h)
      (Linked.snoc h (fun habs => absurd habs (by simp)))
  cases sysCtx with
  | none => exact h1
  | some s =>
    dsimp only
    split
    · exact TurnInv.pushFront h1 (Linked.cons_front h1.1 (by simp))
    · exact h1

theorem ollamaSend_inv (exec : String → Json → String)
    (oracle : Nat → OllamaOutcome) (sysCtx : Option String)
    (msgs : List OllamaMessage) (u : String) (h : OllamaLinked msgs) :
    TurnInv OllamaLinked (ollamaSend exec oracle sysCtx msgs u).turn := by
  exact ollamaRounds_inv exec oracle MAX_TOOL_ROUNDS 0 _
    (ollamaInitTurn_inv sysCtx msgs u h)

/-! ## The linking invariant through the Claude loop

The tool-enabled Claude agent never pushes a tool-role message (tool results
travel inside user messages), so the invariant is preserved for every
matching relation. -/

theorem claudeTextFinish_inv (hm : CMessage → CMessage → Prop)
    (t : Turn CMessage) (text : String)
    (ht : TurnInv (Linked (fun m => m.role = "tool") hm) t) :
    TurnInv (Linked (fun m => m.role = "tool") hm) (claudeTextFinish t text).turn := by
  unfold claudeTextFinish
  show TurnInv _ (if text ≠ "" then
    t.push { role := "assistant", content := .str text } else t)
  by_cases hcnt : text ≠ ""
  · rw [if_pos hcnt]
    exact TurnInv.push ht (Linked.snoc ht.1 (fun habs => absurd habs (by simp)))
  · rw [if_neg hcnt]
    exact ht

theorem claudeRounds_inv (hm : CMessage → CMessage → Prop)
    (exec : String → Json → String) (oracle : Nat → ClaudeOutcome)
    (fuel round : Nat) (t : Turn CMessage)
    (ht : TurnInv (Linked (fun m => m.role = "tool") hm) t) :
    TurnInv (Linked (fun m => m.role = "tool") hm)
      (claudeRounds exec oracle round fuel t).turn := by
  induction fuel generalizing round t with
  | zero => exact ht
  | succ fuel ih =>
    cases hc : claudeCallApi (oracle round) with
    | error e =>
      simp only [claudeRounds, hc]
      exact TurnInv.pop ht ht.1.dropLast_of
    | ok pr =>
      obtain ⟨text, rest⟩ := pr
      obtain ⟨otus, cbs⟩ := rest
      cases otus with
      | none =>
        simp only [claudeRounds, hc]
        exact claudeTextFinish_inv hm t text ht
      | some tus =>
        simp only [claudeRounds, hc]
        by_cases hlen : tus.length > 0
        · rw [if_pos hlen]
          apply ih
          have h1 : TurnInv (Linked (fun m => m.role = "tool") hm)
              (t.push { role := "assistant", content := .blocks cbs }) :=
            TurnInv.push ht (Linked.snoc ht.1 (fun habs => absurd habs (by simp)))
          exact TurnInv.push h1 (Linked.snoc h1.1 (fun habs => absurd habs (by simp)))
        · rw [if_neg hlen]
          exact claudeTextFinish_inv hm t text ht

theorem claudeSend_inv (hm : CMessage → CMessage → Prop)
    (exec : String → Json → String) (oracle : Nat → ClaudeOutcome)
    (msgs : List CMessage) (u : String)
    (h : Linked (fun m => m.role = "tool") hm msgs) :
    TurnInv (Linked (fun m => m.role = "tool") hm)
      (claudeSend exec oracle msgs u).turn := by
  apply claudeRounds_inv
  exact TurnInv.push (TurnInv.start h)
    (Linked.snoc h (fun habs => absurd habs (by simp)))

/-- C3: in every reachable conversation state produced by the tool-calling
loop of a tool-equipped agent (starting from any history satisfying the
invariant), every tool-role message is preceded in the log by an assistant
message whose recorded tool-call list contains an entry matching that tool
message's toolCallId (for Ollama, whose tool calls and tool messages carry
no ids, the match is against the absent id; the Claude agent produces no
tool-role messages, so its invariant is preserved for every matching
relation). -/
theorem c3_tool_message_linking :
    (∀ (exec : String → Json → String) (oracle : Nat → GroqOutcome)
        (msgs : List GroqMessage) (u : String), GroqLinked msgs →
        GroqLinked (groqSend exec oracle msgs u).msgs ∧
        ∀ s ∈ (groqSend exec oracle msgs u).trace, GroqLinked s) ∧
    (∀ (exec : String → Json → String) (oracle : Nat → OllamaOutcome)
        (sysCtx : Option String) (msgs : List OllamaMessage) (u : String),
        OllamaLinked msgs →
        OllamaLinked (ollamaSend exec oracle sysCtx msgs u).msgs ∧
        ∀ s ∈ (ollamaSend exec oracle sysCtx msgs u).trace, OllamaLinked s) ∧
    (∀ (hm : CMessage → CMessage → Prop) (exec : String → Json → String)
        (oracle : Nat → ClaudeOutcome) (msgs : List CMessage) (u : String),
        Linked (fun m => m.role = "tool") hm msgs →
        Linked (fun m => m.role = "tool") hm (claudeSend exec oracle msgs u).msgs ∧
        ∀ s ∈ (claudeSend exec oracle msgs u).trace,
          Linked (fun m => m.role = "tool") hm s) := by
  refine ⟨?_, ?_, ?_⟩
  · intro exec oracle msgs u h
    have hinv := groqSend_inv exec oracle msgs u h
    refine ⟨by rw [TurnOut.msgs_turn]; exact hinv.1, ?_⟩
    intro s hs
    rw [TurnOut.trace_turn] at hs
    exact hinv.2 s hs
  · intro exec oracle sysCtx msgs u h
    have hinv := ollamaSend_inv exec oracle sysCtx msgs u h
    refine ⟨by rw [TurnOut.msgs_turn]; exact hinv.1, ?_⟩
    intro s hs
    rw [TurnOut.trace_turn] at hs
    exact hinv.2 s hs
  · intro hm exec oracle msgs u h
    have hinv := claudeSend_inv hm exec oracle msgs u h
    refine ⟨by rw [TurnOut.msgs_turn]; exact hinv.1, ?_⟩
    intro s hs
    rw [TurnOut.trace_turn] at hs
    exact hinv.2 s hs

/-- Witness for C3 starting from the empty (trivially linked) history with
providers that do return tool calls. -/
theorem c3_tool_message_linking_witness :
    GroqLinked (groqSend (fun _ _ => "r")
      (fun _ => .reply "" [⟨"id1", ⟨"list_files", ""⟩⟩]) [] "hi").msgs ∧
    OllamaLinked (ollamaSend (fun _ _ => "r")
      (fun _ => .reply "" [⟨⟨"list_files", none⟩⟩]) none [] "hi").msgs :=
  ⟨(c3_tool_message_linking.1 _ _ [] "hi" (linked_nil _ _)).1,
   (c3_tool_message_linking.2.1 _ _ none [] "hi" (linked_nil _ _)).1⟩

end Minigeri
